import Mathlib

/-!
Verification development for the TradeKix MCP server (`src/index.ts`).

The program is a protocol adapter: each tool handler collects its defined
parameters, delegates to `makeRequest` (which resolves the API key, builds a
URL with query parameters, performs one `fetch`, parses the JSON body and
normalizes the success/error envelope), and wraps the result as a single
text content block produced by `JSON.stringify(data, null, 2)`.

The embedding below is a faithful shallow model of that code:
* JSON values are modelled by the inductive `Json` (numbers as `Int`: every
  numeric literal occurring in the repository and its spec is an integer);
* JavaScript `undefined` is modelled by `Option.none` where it can occur
  (absent object fields, `JSON.stringify` of `undefined`);
* JavaScript truthiness (`!data.success`, `data.upgrade ? ... : ...`,
  `if (from) ...`) is modelled by `truthy`;
* the network is an oracle `net : Request → FetchOutcome`; `makeRequest`
  returns both its result (`Except JsFault _`, faults model thrown
  exceptions / rejected promises) and the trace of requests it issued.
-/

namespace Tradekix

mutual

/-- JSON values, as produced by `resp.json()`.  Numbers are modelled as
integers (all numbers appearing in this repository's envelopes are
integers; float formatting is outside the model).  Arrays and objects
carry their own list types so that every function on `Json` is plain
mutual structural recursion (executable and kernel-reducible). -/
inductive Json where
  | null : Json
  | bool (b : Bool) : Json
  | num (n : Int) : Json
  | str (s : String) : Json
  | arr (elems : JsonElems) : Json
  | obj (fields : JsonFields) : Json

/-- The element list of a JSON array. -/
inductive JsonElems where
  | nil : JsonElems
  | cons (head : Json) (tail : JsonElems) : JsonElems

/-- The field list of a JSON object (in insertion order). -/
inductive JsonFields where
  | nil : JsonFields
  | cons (key : String) (val : Json) (tail : JsonFields) : JsonFields

end

/-- Convenience constructor for object literals. -/
def jsonFieldsOf : List (String × Json) → JsonFields
  | [] => .nil
  | f :: fs => .cons f.1 f.2 (jsonFieldsOf fs)

/-- Convenience constructor for array literals. -/
def jsonElemsOf : List Json → JsonElems
  | [] => .nil
  | x :: xs => .cons x (jsonElemsOf xs)

/-- Concatenation of field lists. -/
def fieldsAppend : JsonFields → JsonFields → JsonFields
  | .nil, gs => gs
  | .cons k v fs, gs => .cons k v (fieldsAppend fs gs)

/-- Field lookup in a JS object's field list (first match; parsed JSON
objects have unique keys). -/
def lookupField : JsonFields → String → Option Json
  | .nil, _ => none
  | .cons k' v fs, k => if k' = k then some v else lookupField fs k

/-- JS property access `v.k` for non-null `v`: an object yields its field
(or `undefined`), every other non-null value yields `undefined` for the
property names this program reads.  (`null.k` throws; that case is handled
separately in `processResponse`.) -/
def getField : Json → String → Option Json
  | .obj fs, k => lookupField fs k
  | _, _ => none

/-- JS truthiness of a possibly-`undefined` value: `undefined`, `null`,
`false`, `0` and `""` are falsy; arrays and objects are truthy. -/
def truthy : Option Json → Bool
  | none => false
  | some .null => false
  | some (.bool b) => b
  | some (.num n) => if n = 0 then false else true
  | some (.str s) => if s = "" then false else true
  | some (.arr _) => true
  | some (.obj _) => true

/-- A value of `Record<string, string>` as it may actually arrive at
`makeRequest` at runtime: a defined string, `undefined`, or `null`
(the guard in `makeRequest` checks all three cases). -/
inductive ParamVal where
  | str (s : String) : ParamVal
  | undef : ParamVal
  | nullv : ParamVal
deriving DecidableEq

/-- Model of `URLSearchParams.set k v`: replace the first entry named `k` (deleting
any later ones), or append `(k, v)` if no entry is named `k`. -/
def setParam : List (String × String) → String → String → List (String × String)
  | [], k, v => [(k, v)]
  | p :: ps, k, v =>
    if p.1 = k then (k, v) :: ps.filter (fun q => ¬ q.1 = k)
    else p :: setParam ps k v

/-- The body of the `forEach` loop of `makeRequest`: `set` the parameter
on the query string iff its value is neither `undefined` nor `null` nor
`""`. -/
def buildStep (q : List (String × String)) (kv : String × ParamVal) :
    List (String × String) :=
  match kv.2 with
  | .str v => if v = "" then q else setParam q kv.1 v
  | .undef => q
  | .nullv => q

/-- The `forEach` loop of `makeRequest`, over `Object.entries(params)`. -/
def buildQuery (params : List (String × ParamVal)) : List (String × String) :=
  params.foldl buildStep []

def BASE_URL : String := "https://tradekix-alpha.vercel.app/api/v1"

/-- The URL constructed by `makeRequest`: fixed base joined with the
endpoint path, plus the query string. -/
structure UrlModel where
  path : String
  query : List (String × String)
deriving DecidableEq

/-- Model of `new URL(BASE_URL + "/" + endpoint)` followed by the parameter loop
(`params` is `none` when the handler passes no second argument). -/
def buildUrl (endpoint : String) (params : Option (List (String × ParamVal))) : UrlModel :=
  { path := BASE_URL ++ "/" ++ endpoint
    query :=
      match params with
      | none => []
      | some ps => buildQuery ps }

/-- An outbound HTTP request as `fetch` receives it. -/
structure Request where
  url : UrlModel
  headers : List (String × String)
deriving DecidableEq

/-- What the outside world does with one request: the fetch may reject
(network failure), or deliver a response whose body either fails to parse
as JSON (`resp.json()` rejects) or parses to a `Json` value. -/
inductive FetchOutcome where
  | networkError : FetchOutcome
  | body (parsed : Option Json) : FetchOutcome

/-- A fault propagating out of the handler (a thrown error / rejected
promise).  `thrown` carries the message of an explicitly constructed
`Error`; `typeError` is the TypeError raised by property access on `null`;
`fetchFailed` / `jsonParseFailed` are the transport-level rejections. -/
inductive JsFault where
  | thrown (msg : String) : JsFault
  | typeError : JsFault
  | fetchFailed : JsFault
  | jsonParseFailed : JsFault
deriving DecidableEq

/-- The message of the error thrown by `getApiKey` when the key is
missing, verbatim from the source. -/
def apiKeyErrorMessage : String :=
  "TRADEKIX_API_KEY environment variable is required.\n" ++
  "Get a free key (100 calls/day) at https://www.tradekix.ai/ai-agent-access\n" ++
  "Or run: curl -X POST https://tradekix-alpha.vercel.app/api/v1/connect " ++
  "-H \"Content-Type: application/json\" " ++
  "-d \x27\x7b\"agent_name\":\"MyClaude\",\"email\":\"you@example.com\",\"source\":\"mcp\"\x7d\x27"

/-- Model of `getApiKey`: read `process.env.TRADEKIX_API_KEY` (`none` models an
unset variable) and throw when it is absent or empty (`!key`). -/
def getApiKey (env : Option String) : Except JsFault String :=
  match env with
  | none => .error (.thrown apiKeyErrorMessage)
  | some key => if key = "" then .error (.thrown apiKeyErrorMessage) else .ok key

/-- The value `makeRequest` returns on the happy path: either the `data`
field of a successful envelope (possibly `undefined`), or the normalized
error object built in the `!data.success` branch (`error` key with a
possibly-`undefined` value; `upgrade` / `retry_after_seconds` keys present
exactly when the corresponding spread fired). -/
inductive AdapterResult where
  | data (v : Option Json) : AdapterResult
  | err (error upgrade retry_after_seconds : Option Json) : AdapterResult

/-- The envelope branch of `makeRequest`, applied to the parsed body.
`!data.success` on a `null` body throws a TypeError; otherwise a falsy
`success` yields the normalized error object (each optional hint included
iff truthy, per `data.upgrade ? { upgrade: data.upgrade } : {}`), and a
truthy `success` yields `data.data`. -/
def processResponse : Json → Except JsFault AdapterResult
  | .null => .error .typeError
  | body =>
    if truthy (getField body "success") then
      .ok (.data (getField body "data"))
    else
      .ok (.err (getField body "error")
        (if truthy (getField body "upgrade") then getField body "upgrade" else none)
        (if truthy (getField body "retry_after_seconds") then getField body "retry_after_seconds" else none))

/-- The single request `makeRequest` hands to `fetch`: the built URL, and
the credential in the dedicated `X-API-Key` header. -/
def buildRequest (key endpoint : String) (params : Option (List (String × ParamVal))) : Request :=
  { url := buildUrl endpoint params
    headers := [("X-API-Key", key)] }

/-- Model of `makeRequest(endpoint, params)` run against environment `env` and
network oracle `net`.  Returns the result (value or fault) together with
the trace of requests actually issued. -/
def makeRequest (env : Option String) (endpoint : String)
    (params : Option (List (String × ParamVal))) (net : Request → FetchOutcome) :
    Except JsFault AdapterResult × List Request :=
  match getApiKey env with
  | .error e => (.error e, [])
  | .ok key =>
    let req := buildRequest key endpoint params
    match net req with
    | .networkError => (.error .fetchFailed, [req])
    | .body none => (.error .jsonParseFailed, [req])
    | .body (some j) => (processResponse j, [req])

/-! ## `JSON.stringify(v, null, 2)` -/

/-- Decimal digit character. -/
def digitChar (n : Nat) : Char := Char.ofNat (48 + n)

/-- Decimal digits of a natural number, most significant first.  The
`fuel` argument makes the recursion structural (hence kernel-reducible);
`fuel = n + 1` always suffices since a number has at most `n + 1`
digits. -/
def natDigitsF : Nat → Nat → List Char
  | 0, _ => []
  | fuel + 1, n =>
    if n < 10 then [digitChar n]
    else natDigitsF fuel (n / 10) ++ [digitChar (n % 10)]

/-- Decimal digits of a natural number, most significant first. -/
def natDigits (n : Nat) : List Char := natDigitsF (n + 1) n

/-- Decimal string `String(n)` for an integer JS number. -/
def intStr (n : Int) : String :=
  if n < 0 then "-" ++ String.mk (natDigits (-n).toNat)
  else String.mk (natDigits n.toNat)

/-- Hexadecimal digit character (lowercase, as `JSON.stringify` emits). -/
def hexChar (n : Nat) : Char :=
  if n < 10 then Char.ofNat (48 + n) else Char.ofNat (87 + n)

/-- Escaping by `JSON.stringify` of one string character: `"` and `\`
are backslash-escaped, the control characters with short forms use them,
all other code points below 0x20 become `\u00XX`, and everything else is
emitted literally. -/
def escapeChar (c : Char) : String :=
  if c = '"' then "\\\""
  else if c = '\\' then "\\\\"
  else if c = '\x08' then "\\b"
  else if c = '\t' then "\\t"
  else if c = '\n' then "\\n"
  else if c = '\x0c' then "\\f"
  else if c = '\r' then "\\r"
  else if c.toNat < 32 then
    "\\u00" ++ String.mk [hexChar (c.toNat / 16), hexChar (c.toNat % 16)]
  else String.singleton c

/-- Escaping of a whole character sequence. -/
def escChars : List Char → List Char
  | [] => []
  | c :: cs => (escapeChar c).data ++ escChars cs

/-- A JSON string literal: quotes around the escaped characters. -/
def quoteStr (s : String) : String :=
  "\"" ++ String.mk (escChars s.data) ++ "\""

/-- Indentation emitted by `JSON.stringify(v, null, 2)` at nesting depth
`d`: `2 * d` spaces. -/
def indent (d : Nat) : String := String.mk (List.replicate (2 * d) ' ')

mutual

/-- Printout `JSON.stringify(v, null, 2)` of a value at nesting depth `d`.  Empty
arrays and objects print as `[]` / `\x7b\x7d`; non-empty ones put each
member on its own line, indented one level deeper, with `": "` between
key and value. -/
def strJson : Json → Nat → String
  | .null, _ => "null"
  | .bool b, _ => if b then "true" else "false"
  | .num n, _ => intStr n
  | .str s, _ => quoteStr s
  | .arr .nil, _ => "[]"
  | .arr (.cons x xs), d =>
    "[\n" ++ indent (d + 1) ++ strJson x (d + 1) ++ strElems xs (d + 1) ++
      "\n" ++ indent d ++ "]"
  | .obj .nil, _ => "\x7b\x7d"
  | .obj (.cons k v fs), d =>
    "\x7b\n" ++ indent (d + 1) ++ quoteStr k ++ ": " ++ strJson v (d + 1) ++
      strFields fs (d + 1) ++ "\n" ++ indent d ++ "\x7d"

/-- Remaining array elements after the first, each preceded by `",\n"`
and indentation. -/
def strElems : JsonElems → Nat → String
  | .nil, _ => ""
  | .cons x xs, d => ",\n" ++ indent d ++ strJson x d ++ strElems xs d

/-- Remaining object members after the first, each preceded by `",\n"`
and indentation: quoted key, `": "`, value. -/
def strFields : JsonFields → Nat → String
  | .nil, _ => ""
  | .cons k v fs, d =>
    ",\n" ++ indent d ++ quoteStr k ++ ": " ++ strJson v d ++ strFields fs d

end

/-- Printout `JSON.stringify(v, null, 2)` of a top-level value. -/
def stringify (j : Json) : String := strJson j 0

/-! ## Tool handlers -/

/-- A field entry for a possibly-`undefined` value: absent when the value
is `undefined` (mirroring `JSON.stringify` dropping `undefined`-valued
keys), present otherwise. -/
def optEntry (k : String) : Option Json → JsonFields
  | none => .nil
  | some v => .cons k v .nil

/-- Printout `JSON.stringify(data, null, 2)` of the value `makeRequest` returned.
`JSON.stringify(undefined)` is the JS value `undefined` (modelled `none`);
in the normalized error object an `undefined`-valued `error` key is
dropped by `JSON.stringify`, and the keys keep their insertion order
(`error`, `upgrade`, `retry_after_seconds`). -/
def stringifyResult : AdapterResult → Option String
  | .data none => none
  | .data (some j) => some (stringify j)
  | .err e u r =>
    some (stringify (Json.obj
      (fieldsAppend (optEntry "error" e) (fieldsAppend (optEntry "upgrade" u)
        (optEntry "retry_after_seconds" r)))))

/-- One MCP content block `\x7b type: "text", text: ... \x7d`. -/
structure ContentBlock where
  type : String
  text : Option String
deriving DecidableEq

/-- The handler's return value `\x7b content: [...] \x7d`. -/
structure ToolResult where
  content : List ContentBlock
deriving DecidableEq

/-- The common tail of every handler:
`return \x7b content: [\x7b type: "text", text: JSON.stringify(data, null, 2) \x7d] \x7d`. -/
def wrapResult (r : AdapterResult) : ToolResult :=
  { content := [{ type := "text", text := stringifyResult r }] }

/-- A whole tool invocation: `await makeRequest(endpoint, params)` then
wrap as a ToolResult.  A fault from `makeRequest` propagates (the handlers
have no try/catch). -/
def runTool (env : Option String) (net : Request → FetchOutcome)
    (endpoint : String) (params : Option (List (String × ParamVal))) :
    Except JsFault ToolResult × List Request :=
  let out := makeRequest env endpoint params net
  (out.1.map wrapResult, out.2)

/-- Model of `if (x) params.k = x`: include an optional string parameter iff it is
defined and truthy (non-empty). -/
def addIf (k : String) : Option String → List (String × ParamVal)
  | none => []
  | some s => if s = "" then [] else [(k, ParamVal.str s)]

/-- Stringification `String(b)` of a boolean. -/
def stringOfBool (b : Bool) : String := if b then "true" else "false"

/-- Handler of `tradekix_market_overview`: no parameters. -/
def marketOverviewTool (env : Option String) (net : Request → FetchOutcome) :
    Except JsFault ToolResult × List Request :=
  runTool env net "market/overview" none

/-- Parameter record built by the `tradekix_prices` handler: `symbol`
unconditionally, `from`/`to`/`limit` iff truthy. -/
def pricesParams (symbol : String) (from_ to_ limit : Option String) :
    List (String × ParamVal) :=
  [("symbol", ParamVal.str symbol)] ++ addIf "from" from_ ++ addIf "to" to_ ++
    addIf "limit" limit

/-- Handler of `tradekix_prices`. -/
def pricesTool (env : Option String) (net : Request → FetchOutcome)
    (symbol : String) (from_ to_ limit : Option String) :
    Except JsFault ToolResult × List Request :=
  runTool env net "market/prices" (some (pricesParams symbol from_ to_ limit))

/-- Parameter record built by the `tradekix_indices` handler. -/
def indicesParams (region country : Option String) : List (String × ParamVal) :=
  addIf "region" region ++ addIf "country" country

/-- Handler of `tradekix_indices`. -/
def indicesTool (env : Option String) (net : Request → FetchOutcome)
    (region country : Option String) : Except JsFault ToolResult × List Request :=
  runTool env net "market/indices" (some (indicesParams region country))

/-- Parameter record built by the `tradekix_forex` handler. -/
def forexParams (symbol : Option String) : List (String × ParamVal) :=
  addIf "symbol" symbol

/-- Handler of `tradekix_forex`. -/
def forexTool (env : Option String) (net : Request → FetchOutcome)
    (symbol : Option String) : Except JsFault ToolResult × List Request :=
  runTool env net "market/forex" (some (forexParams symbol))

/-- Handler of `tradekix_earnings`: no parameters. -/
def earningsTool (env : Option String) (net : Request → FetchOutcome) :
    Except JsFault ToolResult × List Request :=
  runTool env net "events/earnings" none

/-- Parameter record built by the `tradekix_economic_events` handler. -/
def economicEventsParams (country impact from_ to_ : Option String) :
    List (String × ParamVal) :=
  addIf "country" country ++ addIf "impact" impact ++ addIf "from" from_ ++
    addIf "to" to_

/-- Handler of `tradekix_economic_events`. -/
def economicEventsTool (env : Option String) (net : Request → FetchOutcome)
    (country impact from_ to_ : Option String) :
    Except JsFault ToolResult × List Request :=
  runTool env net "events/economic"
    (some (economicEventsParams country impact from_ to_))

/-- Parameter record built by the `tradekix_congressional_trades` handler. -/
def congressionalTradesParams (symbol politician party type_ from_ to_ : Option String) :
    List (String × ParamVal) :=
  addIf "symbol" symbol ++ addIf "politician" politician ++ addIf "party" party ++
    addIf "type" type_ ++ addIf "from" from_ ++ addIf "to" to_

/-- Handler of `tradekix_congressional_trades`. -/
def congressionalTradesTool (env : Option String) (net : Request → FetchOutcome)
    (symbol politician party type_ from_ to_ : Option String) :
    Except JsFault ToolResult × List Request :=
  runTool env net "trades/congressional"
    (some (congressionalTradesParams symbol politician party type_ from_ to_))

/-- Parameter record built by the `tradekix_sentiment` handler: `sentiment`
iff truthy, `financial_only` iff defined (`!== undefined`), stringified. -/
def sentimentParams (sentiment : Option String) (financial_only : Option Bool) :
    List (String × ParamVal) :=
  addIf "sentiment" sentiment ++
    (match financial_only with
     | none => []
     | some b => [("financial_only", ParamVal.str (stringOfBool b))])

/-- Handler of `tradekix_sentiment`. -/
def sentimentTool (env : Option String) (net : Request → FetchOutcome)
    (sentiment : Option String) (financial_only : Option Bool) :
    Except JsFault ToolResult × List Request :=
  runTool env net "social/sentiment" (some (sentimentParams sentiment financial_only))

/-- Parameter record built by the `tradekix_tweets` handler. -/
def tweetsParams (author symbol sentiment : Option String)
    (financial_only : Option Bool) : List (String × ParamVal) :=
  addIf "author" author ++ addIf "symbol" symbol ++ addIf "sentiment" sentiment ++
    (match financial_only with
     | none => []
     | some b => [("financial_only", ParamVal.str (stringOfBool b))])

/-- Handler of `tradekix_tweets`. -/
def tweetsTool (env : Option String) (net : Request → FetchOutcome)
    (author symbol sentiment : Option String) (financial_only : Option Bool) :
    Except JsFault ToolResult × List Request :=
  runTool env net "social/tweets"
    (some (tweetsParams author symbol sentiment financial_only))

/-- Handler of `tradekix_news`: no parameters. -/
def newsTool (env : Option String) (net : Request → FetchOutcome) :
    Except JsFault ToolResult × List Request :=
  runTool env net "news/summary" none

/-- Predicate: `s` contains `t` as a substring (its characters occur contiguously). -/
def containsSub (s t : String) : Prop := t.data <:+: s.data

instance (s t : String) : Decidable (containsSub s t) :=
  List.decidableInfix t.data s.data

/-- The entries `makeRequest`'s loop keeps: a defined, non-empty string
value, paired with its key. -/
def keepParam : String × ParamVal → Option (String × String)
  | (k, .str v) => if v = "" then none else some (k, v)
  | (_, .undef) => none
  | (_, .nullv) => none

/-! ## A JSON parser, for the round-trip property

The spec asserts that the tool output is the pretty-printed `data` field
"round-trip: output JSON, when parsed, deep-equals the `data` field".  The
parser below (plain JSON with integer numbers, mirroring the `Json` model)
makes that statement provable: `parseJson (stringify j) = some j`. -/

/-- JSON whitespace. -/
def isWs (c : Char) : Bool := c = ' ' || c = '\t' || c = '\n' || c = '\r'

/-- Drop leading whitespace. -/
def skipWs : List Char → List Char
  | [] => []
  | c :: cs => if isWs c then skipWs cs else c :: cs

/-- Decimal digit test. -/
def isDigit (c : Char) : Bool := 48 ≤ c.toNat && c.toNat ≤ 57

/-- Split off the longest leading run of decimal digits. -/
def readDigits : List Char → List Char × List Char
  | [] => ([], [])
  | c :: cs =>
    if isDigit c then
      let p := readDigits cs
      (c :: p.1, p.2)
    else ([], c :: cs)

/-- Numeric value of a digit character. -/
def digitVal (c : Char) : Nat := c.toNat - 48

/-- Value of a digit run, most significant first, onto an accumulator. -/
def valOf : List Char → Nat → Nat
  | [], acc => acc
  | c :: cs, acc => valOf cs (acc * 10 + digitVal c)

/-- Value of a lowercase hexadecimal digit character. -/
def hexVal (c : Char) : Nat := if c.toNat ≤ 57 then c.toNat - 48 else c.toNat - 87

/-- Decode a single-character escape (the inverse of `escapeChar`'s short
forms, plus the `\/` JSON allows). -/
def unescapeChar (e : Char) : Option Char :=
  if e = '"' then some '"'
  else if e = '\\' then some '\\'
  else if e = '/' then some '/'
  else if e = 'b' then some '\x08'
  else if e = 't' then some '\t'
  else if e = 'n' then some '\n'
  else if e = 'f' then some '\x0c'
  else if e = 'r' then some '\r'
  else none

/-- Parse a JSON string body (after the opening quote), returning the
decoded characters and the input after the closing quote. -/
def parseStr : List Char → Option (List Char × List Char)
  | [] => none
  | c :: cs =>
    if c = '"' then some ([], cs)
    else if c = '\\' then
      match cs with
      | [] => none
      | e :: cs2 =>
        if e = 'u' then
          match cs2 with
          | h1 :: h2 :: h3 :: h4 :: cs3 =>
            (parseStr cs3).map (fun p =>
              (Char.ofNat (hexVal h1 * 4096 + hexVal h2 * 256 + hexVal h3 * 16 +
                hexVal h4) :: p.1, p.2))
          | _ => none
        else
          match unescapeChar e with
          | some c2 => (parseStr cs2).map (fun p => (c2 :: p.1, p.2))
          | none => none
    else (parseStr cs).map (fun p => (c :: p.1, p.2))

/-- Match an expected literal character sequence, returning the rest. -/
def expectChars : List Char → List Char → Option (List Char)
  | [], s => some s
  | c :: cs, d :: ds => if c = d then expectChars cs ds else none
  | _ :: _, [] => none

mutual

/-- Parse one JSON value (integers only, as in the `Json` model), fueled
for structural recursion; the fuel only decreases with nesting and
element count, so any fuel above `weight` of the value suffices. -/
def parseVal : Nat → List Char → Option (Json × List Char)
  | 0, _ => none
  | fuel + 1, s =>
    match skipWs s with
    | [] => none
    | c :: r =>
      if isDigit c then
        some (.num ((valOf (readDigits (c :: r)).1 0 : Nat) : Int),
          (readDigits (c :: r)).2)
      else if c = '-' then
        match readDigits r with
        | ([], _) => none
        | (d :: ds, r2) => some (.num (-((valOf (d :: ds) 0 : Nat) : Int)), r2)
      else if c = 'n' then (expectChars ['u', 'l', 'l'] r).map (fun r2 => (.null, r2))
      else if c = 't' then (expectChars ['r', 'u', 'e'] r).map (fun r2 => (.bool true, r2))
      else if c = 'f' then
        (expectChars ['a', 'l', 's', 'e'] r).map (fun r2 => (.bool false, r2))
      else if c = '"' then (parseStr r).map (fun p => (.str (String.mk p.1), p.2))
      else if c = '[' then
        match skipWs r with
        | [] => none
        | c2 :: r2 =>
          if c2 = ']' then some (.arr .nil, r2)
          else (parseElems fuel (c2 :: r2)).map (fun p => (.arr p.1, p.2))
      else if c = '\x7b' then
        match skipWs r with
        | [] => none
        | c2 :: r2 =>
          if c2 = '\x7d' then some (.obj .nil, r2)
          else (parseFields fuel (c2 :: r2)).map (fun p => (.obj p.1, p.2))
      else none

/-- Parse the elements of a non-empty array, up to and including the
closing bracket. -/
def parseElems : Nat → List Char → Option (JsonElems × List Char)
  | 0, _ => none
  | fuel + 1, s =>
    match parseVal fuel s with
    | none => none
    | some (j, r) =>
      match skipWs r with
      | [] => none
      | c :: r2 =>
        if c = ',' then (parseElems fuel (skipWs r2)).map (fun p => (.cons j p.1, p.2))
        else if c = ']' then some (.cons j .nil, r2)
        else none

/-- Parse the members of a non-empty object, up to and including the
closing brace. -/
def parseFields : Nat → List Char → Option (JsonFields × List Char)
  | 0, _ => none
  | fuel + 1, s =>
    match s with
    | [] => none
    | c :: r =>
      if c = '"' then
        match parseStr r with
        | none => none
        | some (ks, r1) =>
          match skipWs r1 with
          | [] => none
          | c2 :: r2 =>
            if c2 = ':' then
              match parseVal fuel r2 with
              | none => none
              | some (j, r3) =>
                match skipWs r3 with
                | [] => none
                | c3 :: r4 =>
                  if c3 = ',' then
                    (parseFields fuel (skipWs r4)).map
                      (fun p => (.cons (String.mk ks) j p.1, p.2))
                  else if c3 = '\x7d' then some (.cons (String.mk ks) j .nil, r4)
                  else none
            else none
      else none

end

/-- Parse a whole JSON document: one value with only whitespace after it
(`s.length + 1` always exceeds the fuel the value can consume). -/
def parseJson (s : String) : Option Json :=
  match parseVal (s.length + 1) s.data with
  | some (j, r) => if (skipWs r).isEmpty then some j else none
  | none => none

mutual

/-- Fuel bound for `parseVal`: enough fuel to parse the printout of `j`. -/
def weight : Json → Nat
  | .null => 1
  | .bool _ => 1
  | .num _ => 1
  | .str _ => 1
  | .arr .nil => 1
  | .arr (.cons x xs) => 1 + weightE (.cons x xs)
  | .obj .nil => 1
  | .obj (.cons k v fs) => 1 + weightF (.cons k v fs)

/-- Fuel bound for `parseElems`. -/
def weightE : JsonElems → Nat
  | .nil => 0
  | .cons x xs => 1 + weight x + weightE xs

/-- Fuel bound for `parseFields`. -/
def weightF : JsonFields → Nat
  | .nil => 0
  | .cons _ v fs => 1 + weight v + weightF fs

end

/-- Condition on the input following a printed value: it must not start
with a digit (a digit would be absorbed into a printed number). -/
def headNotDigit : List Char → Prop
  | [] => True
  | c :: _ => isDigit c = false

/-- A character list consisting of whitespace only. -/
def allWs (w : List Char) : Prop := ∀ c ∈ w, isWs c = true

/-! ## Helper lemmas -/

theorem mem_setParam_self (q : List (String × String)) (k v : String) :
    (k, v) ∈ setParam q k v := by
  induction q with
  | nil => simp [setParam]
  | cons p ps ih =>
    by_cases h : p.1 = k
    · simp [setParam, h]
    · simp only [setParam, if_neg h]
      exact List.mem_cons_of_mem _ ih

theorem setParam_of_not_mem (q : List (String × String)) (k v : String)
    (h : ∀ p ∈ q, p.1 ≠ k) : setParam q k v = q ++ [(k, v)] := by
  induction q with
  | nil => rfl
  | cons p ps ih =>
    have hp : p.1 ≠ k := h p (List.mem_cons_self p ps)
    simp only [setParam, if_neg hp, List.cons_append, List.cons.injEq, true_and]
    exact ih (fun q hq => h q (List.mem_cons_of_mem p hq))

theorem mem_of_mem_setParam (q : List (String × String)) (k' v' k v : String)
    (h : (k, v) ∈ setParam q k' v') : (k, v) ∈ q ∨ (k = k' ∧ v = v') := by
  induction q with
  | nil =>
    simp only [setParam, List.mem_singleton, Prod.mk.injEq] at h
    exact Or.inr h
  | cons p ps ih =>
    by_cases hp : p.1 = k'
    · simp only [setParam, if_pos hp, List.mem_cons, Prod.mk.injEq] at h
      rcases h with h | h
      · exact Or.inr h
      · exact Or.inl (List.mem_cons_of_mem p (List.mem_of_mem_filter h))
    · simp only [setParam, if_neg hp, List.mem_cons] at h
      rcases h with h | h
      · exact Or.inl (by rw [h]; exact List.mem_cons_self p ps)
      · rcases ih h with h1 | h2
        · exact Or.inl (List.mem_cons_of_mem p h1)
        · exact Or.inr h2

theorem mem_of_mem_foldl_buildStep (params : List (String × ParamVal))
    (acc : List (String × String)) (k v : String)
    (h : (k, v) ∈ params.foldl buildStep acc) :
    (k, v) ∈ acc ∨ ((k, ParamVal.str v) ∈ params ∧ v ≠ "") := by
  induction params generalizing acc with
  | nil => exact Or.inl h
  | cons kv params ih =>
    obtain ⟨k', pv⟩ := kv
    rcases ih (buildStep acc (k', pv)) h with hacc | hkeep
    · cases pv with
      | str s =>
        by_cases hs : s = ""
        · simp only [buildStep, if_pos hs] at hacc
          exact Or.inl hacc
        · simp only [buildStep, if_neg hs] at hacc
          rcases mem_of_mem_setParam acc k' s k v hacc with h1 | h2
          · exact Or.inl h1
          · refine Or.inr ⟨?_, h2.2 ▸ hs⟩
            rw [h2.1, h2.2]
            exact List.mem_cons_self _ _
      | undef => exact Or.inl hacc
      | nullv => exact Or.inl hacc
    · exact Or.inr ⟨List.mem_cons_of_mem _ hkeep.1, hkeep.2⟩

theorem foldl_buildStep_eq (params : List (String × ParamVal)) :
    ∀ acc : List (String × String),
    (∀ kv ∈ params, ∀ p ∈ acc, p.1 ≠ kv.1) →
    (params.map Prod.fst).Nodup →
    params.foldl buildStep acc = acc ++ params.filterMap keepParam := by
  induction params with
  | nil => intro acc _ _; simp
  | cons kv params ih =>
    intro acc hdisj hnodup
    obtain ⟨k', pv⟩ := kv
    rw [List.map_cons] at hnodup
    obtain ⟨hknot, hnodup'⟩ := List.nodup_cons.mp hnodup
    cases pv with
    | str s =>
      by_cases hs : s = ""
      · simp only [List.foldl_cons, buildStep, if_pos hs]
        rw [ih acc (fun kv h => hdisj kv (List.mem_cons_of_mem _ h)) hnodup']
        simp [keepParam, hs]
      · simp only [List.foldl_cons, buildStep, if_neg hs]
        rw [setParam_of_not_mem acc k' s (fun p hp => hdisj (k', ParamVal.str s) (List.mem_cons_self _ _) p hp)]
        rw [ih (acc ++ [(k', s)]) ?_ hnodup']
        · simp [keepParam, hs]
        · intro kv hkv p hp
          rcases List.mem_append.mp hp with hp | hp
          · exact hdisj kv (List.mem_cons_of_mem _ hkv) p hp
          · simp only [List.mem_singleton] at hp
            subst hp
            intro hcontra
            apply hknot
            have hmem : kv.1 ∈ params.map Prod.fst :=
              List.mem_map_of_mem Prod.fst hkv
            rw [← hcontra] at hmem
            exact hmem
    | undef =>
      simp only [List.foldl_cons, buildStep]
      rw [ih acc (fun kv h => hdisj kv (List.mem_cons_of_mem _ h)) hnodup']
      simp [keepParam]
    | nullv =>
      simp only [List.foldl_cons, buildStep]
      rw [ih acc (fun kv h => hdisj kv (List.mem_cons_of_mem _ h)) hnodup']
      simp [keepParam]

theorem buildQuery_eq_filterMap (params : List (String × ParamVal))
    (hnodup : (params.map Prod.fst).Nodup) :
    buildQuery params = params.filterMap keepParam := by
  simpa using foldl_buildStep_eq params [] (by simp) hnodup

theorem mem_filterMap_keepParam (params : List (String × ParamVal)) (k v : String) :
    (k, v) ∈ params.filterMap keepParam ↔
      ((k, ParamVal.str v) ∈ params ∧ v ≠ "") := by
  rw [List.mem_filterMap]
  constructor
  · rintro ⟨⟨k', pv⟩, hmem, hkeep⟩
    cases pv with
    | str s =>
      by_cases hs : s = ""
      · simp [keepParam, hs] at hkeep
      · simp only [keepParam, if_neg hs, Option.some.injEq, Prod.mk.injEq] at hkeep
        refine ⟨?_, hkeep.2 ▸ hs⟩
        rw [← hkeep.1, ← hkeep.2]
        exact hmem
    | undef => simp [keepParam] at hkeep
    | nullv => simp [keepParam] at hkeep
  · rintro ⟨hmem, hv⟩
    exact ⟨(k, ParamVal.str v), hmem, by simp [keepParam, hv]⟩

theorem makeRequest_trace (k : String) (hk : ¬ k = "") (endpoint : String)
    (params : Option (List (String × ParamVal))) (net : Request → FetchOutcome) :
    (makeRequest (some k) endpoint params net).2 = [buildRequest k endpoint params] := by
  simp only [makeRequest, getApiKey, if_neg hk]
  cases hnet : net (buildRequest k endpoint params) with
  | networkError => simp [hnet]
  | body p => cases p <;> simp [hnet]

theorem makeRequest_result (k : String) (hk : ¬ k = "") (endpoint : String)
    (params : Option (List (String × ParamVal))) (net : Request → FetchOutcome)
    (j : Json) (hnet : net (buildRequest k endpoint params) = .body (some j)) :
    makeRequest (some k) endpoint params net =
      (processResponse j, [buildRequest k endpoint params]) := by
  simp only [makeRequest, getApiKey, if_neg hk, hnet]

theorem makeRequest_networkError (k : String) (hk : ¬ k = "") (endpoint : String)
    (params : Option (List (String × ParamVal))) (net : Request → FetchOutcome)
    (hnet : net (buildRequest k endpoint params) = .networkError) :
    makeRequest (some k) endpoint params net =
      (.error .fetchFailed, [buildRequest k endpoint params]) := by
  simp only [makeRequest, getApiKey, if_neg hk, hnet]

theorem makeRequest_parseFailed (k : String) (hk : ¬ k = "") (endpoint : String)
    (params : Option (List (String × ParamVal))) (net : Request → FetchOutcome)
    (hnet : net (buildRequest k endpoint params) = .body none) :
    makeRequest (some k) endpoint params net =
      (.error .jsonParseFailed, [buildRequest k endpoint params]) := by
  simp only [makeRequest, getApiKey, if_neg hk, hnet]

theorem processResponse_of_truthy (j : Json)
    (hs : truthy (getField j "success") = true) :
    processResponse j = .ok (.data (getField j "data")) := by
  cases j <;> simp_all [processResponse, getField, truthy]

theorem processResponse_of_falsy (j : Json) (hj : ¬ j = Json.null)
    (hs : truthy (getField j "success") = false) :
    processResponse j = .ok (.err (getField j "error")
      (if truthy (getField j "upgrade") then getField j "upgrade" else none)
      (if truthy (getField j "retry_after_seconds") then getField j "retry_after_seconds"
       else none)) := by
  cases j <;> first
    | exact absurd rfl hj
    | simp [processResponse, hs]

theorem processResponse_isOk (j : Json) (hj : ¬ j = Json.null) :
    ∃ r, processResponse j = .ok r := by
  by_cases hs : truthy (getField j "success") = true
  · exact ⟨_, processResponse_of_truthy j hs⟩
  · exact ⟨_, processResponse_of_falsy j hj (by simpa using hs)⟩

theorem lookupField_errFields_error (e u r : Option Json) :
    lookupField (fieldsAppend (optEntry "error" e) (fieldsAppend (optEntry "upgrade" u)
      (optEntry "retry_after_seconds" r))) "error" = e := by
  cases e <;> cases u <;> cases r <;> simp [optEntry, fieldsAppend, lookupField]

theorem lookupField_errFields_upgrade (e u r : Option Json) :
    lookupField (fieldsAppend (optEntry "error" e) (fieldsAppend (optEntry "upgrade" u)
      (optEntry "retry_after_seconds" r))) "upgrade" = u := by
  cases e <;> cases u <;> cases r <;> simp [optEntry, fieldsAppend, lookupField]

theorem lookupField_errFields_retry (e u r : Option Json) :
    lookupField (fieldsAppend (optEntry "error" e) (fieldsAppend (optEntry "upgrade" u)
      (optEntry "retry_after_seconds" r))) "retry_after_seconds" = r := by
  cases e <;> cases u <;> cases r <;> simp [optEntry, fieldsAppend, lookupField]

theorem buildQuery_append_kept (ps : List (String × ParamVal)) (k v : String)
    (hv : ¬ v = "") :
    buildQuery (ps ++ [(k, ParamVal.str v)]) = setParam (buildQuery ps) k v := by
  simp [buildQuery, List.foldl_append, buildStep, hv]

/-! ## Round-trip lemmas: whitespace, digits, strings -/

theorem data_append (a b : String) : (a ++ b).data = a.data ++ b.data := rfl

theorem skipWs_cons_of_not_ws (c : Char) (z : List Char) (hc : isWs c = false) :
    skipWs (c :: z) = c :: z := by
  simp [skipWs, hc]

theorem skipWs_append_of_allWs (w z : List Char) (hw : allWs w) :
    skipWs (w ++ z) = skipWs z := by
  induction w with
  | nil => rfl
  | cons c cs ih =>
    have hc : isWs c = true := hw c (List.mem_cons_self c cs)
    simp only [List.cons_append, skipWs, hc, if_true]
    exact ih (fun e he => hw e (List.mem_cons_of_mem c he))

theorem allWs_indent (d : Nat) : allWs (indent d).data := by
  intro c hc
  rw [show (indent d).data = List.replicate (2 * d) ' ' from rfl] at hc
  rw [List.eq_of_mem_replicate hc]
  rfl

theorem allWs_newline_indent (d : Nat) : allWs ('\n' :: (indent d).data) := by
  intro c hc
  rcases List.mem_cons.mp hc with h | h
  · rw [h]; rfl
  · exact allWs_indent d c h

theorem not_isWs_of_isDigit (c : Char) (h : isDigit c = true) : isWs c = false := by
  simp only [isDigit, Bool.and_eq_true, decide_eq_true_eq] at h
  simp only [isWs, Bool.or_eq_false_iff, decide_eq_false_iff_not]
  refine ⟨⟨⟨?_, ?_⟩, ?_⟩, ?_⟩ <;> rintro rfl <;> exact absurd h (by decide)

theorem ne_rbracket_of_isDigit (c : Char) (h : isDigit c = true) : ¬ c = ']' := by
  rintro rfl
  simp only [isDigit, Bool.and_eq_true, decide_eq_true_eq] at h
  exact absurd h (by decide)

theorem isDigit_digitChar (n : Nat) (h : n < 10) : isDigit (digitChar n) = true := by
  interval_cases n <;> decide

theorem digitVal_digitChar (n : Nat) (h : n < 10) : digitVal (digitChar n) = n := by
  interval_cases n <;> decide

theorem natDigitsF_all_digits (fuel : Nat) :
    ∀ n c, c ∈ natDigitsF fuel n → isDigit c = true := by
  induction fuel with
  | zero => intro n c hc; simp [natDigitsF] at hc
  | succ f ih =>
    intro n c hc
    by_cases h : n < 10
    · simp only [natDigitsF, if_pos h, List.mem_singleton] at hc
      exact hc ▸ isDigit_digitChar n h
    · simp only [natDigitsF, if_neg h, List.mem_append, List.mem_singleton] at hc
      rcases hc with hc | hc
      · exact ih (n / 10) c hc
      · exact hc ▸ isDigit_digitChar (n % 10) (Nat.mod_lt n (by omega))

theorem natDigitsF_ne_nil (f n : Nat) : ¬ natDigitsF (f + 1) n = [] := by
  by_cases hn : n < 10 <;> simp [natDigitsF, hn]

theorem valOf_append (xs ys : List Char) (acc : Nat) :
    valOf (xs ++ ys) acc = valOf ys (valOf xs acc) := by
  induction xs generalizing acc with
  | nil => rfl
  | cons c cs ih => simp [valOf, ih]

theorem natDigitsF_val (fuel : Nat) :
    ∀ n acc, n < 10 ^ fuel →
      valOf (natDigitsF fuel n) acc = acc * 10 ^ (natDigitsF fuel n).length + n := by
  induction fuel with
  | zero =>
    intro n acc h
    have hn : n = 0 := by simpa using h
    subst hn
    simp [natDigitsF, valOf]
  | succ f ih =>
    intro n acc h
    by_cases hn : n < 10
    · simp [natDigitsF, hn, valOf, digitVal_digitChar n hn]
    · rw [show natDigitsF (f + 1) n = natDigitsF f (n / 10) ++ [digitChar (n % 10)]
        from by simp [natDigitsF, hn]]
      rw [valOf_append]
      have hdiv : n / 10 < 10 ^ f := by
        rw [Nat.div_lt_iff_lt_mul (by omega)]
        calc n < 10 ^ (f + 1) := h
          _ = 10 ^ f * 10 := by rw [Nat.pow_succ]
      rw [ih (n / 10) acc hdiv]
      simp only [valOf, digitVal_digitChar (n % 10) (Nat.mod_lt n (by omega)),
        List.length_append, List.length_singleton]
      have hmod : 10 * (n / 10) + n % 10 = n := Nat.div_add_mod n 10
      have hpow : (10 : Nat) ^ ((natDigitsF f (n / 10)).length + 1) =
          10 ^ (natDigitsF f (n / 10)).length * 10 := Nat.pow_succ ..
      rw [hpow]
      generalize (10 : Nat) ^ (natDigitsF f (n / 10)).length = p
      ring_nf
      omega

theorem valOf_natDigits (n : Nat) : valOf (natDigits n) 0 = n := by
  have h : n < 10 ^ (n + 1) :=
    lt_of_lt_of_le (Nat.lt_pow_self (by omega) n)
      (Nat.pow_le_pow_right (by omega) (Nat.le_succ n))
  simpa using natDigitsF_val (n + 1) n 0 h

theorem readDigits_append (ds rest : List Char) (hds : ∀ c ∈ ds, isDigit c = true)
    (hrest : headNotDigit rest) : readDigits (ds ++ rest) = (ds, rest) := by
  induction ds with
  | nil =>
    cases rest with
    | nil => rfl
    | cons c cs =>
      simp only [headNotDigit] at hrest
      simp [readDigits, hrest]
  | cons d ds ih =>
    have hd : isDigit d = true := hds d (List.mem_cons_self d ds)
    simp only [List.cons_append, readDigits, hd, if_true]
    rw [show ds.append rest = ds ++ rest from rfl]
    rw [ih (fun c hc => hds c (List.mem_cons_of_mem d hc))]

theorem hexVal_hexChar (n : Nat) (h : n < 16) : hexVal (hexChar n) = n := by
  interval_cases n <;> decide

theorem parseVal_ws_irrel (fuel : Nat) (w x : List Char) (hw : allWs w) :
    parseVal fuel (w ++ x) = parseVal fuel x := by
  cases fuel with
  | zero => rfl
  | succ f => simp only [parseVal, skipWs_append_of_allWs w x hw]

theorem parseStr_escChars (l : List Char) :
    ∀ z, parseStr (escChars l ++ '"' :: z) = some (l, z) := by
  induction l with
  | nil => intro z; rw [parseStr.eq_def]; rfl
  | cons c cs ih =>
    intro z
    rw [show escChars (c :: cs) ++ '"' :: z =
      (escapeChar c).data ++ (escChars cs ++ '"' :: z) from by
        simp [escChars, List.append_assoc]]
    by_cases h1 : c = '"'
    · subst h1
      rw [show (escapeChar '"').data = ['\\', '"'] from rfl]
      rw [show parseStr (['\\', '"'] ++ (escChars cs ++ '"' :: z)) =
        (parseStr (escChars cs ++ '"' :: z)).map (fun p => ('"' :: p.1, p.2)) from by rw [parseStr.eq_def]; rfl]
      rw [ih z]
      rfl
    by_cases h2 : c = '\\'
    · subst h2
      rw [show (escapeChar '\\').data = ['\\', '\\'] from rfl]
      rw [show parseStr (['\\', '\\'] ++ (escChars cs ++ '"' :: z)) =
        (parseStr (escChars cs ++ '"' :: z)).map (fun p => ('\\' :: p.1, p.2)) from by rw [parseStr.eq_def]; rfl]
      rw [ih z]
      rfl
    by_cases h3 : c = '\x08'
    · subst h3
      rw [show (escapeChar '\x08').data = ['\\', 'b'] from rfl]
      rw [show parseStr (['\\', 'b'] ++ (escChars cs ++ '"' :: z)) =
        (parseStr (escChars cs ++ '"' :: z)).map (fun p => ('\x08' :: p.1, p.2)) from by rw [parseStr.eq_def]; rfl]
      rw [ih z]
      rfl
    by_cases h4 : c = '\t'
    · subst h4
      rw [show (escapeChar '\t').data = ['\\', 't'] from rfl]
      rw [show parseStr (['\\', 't'] ++ (escChars cs ++ '"' :: z)) =
        (parseStr (escChars cs ++ '"' :: z)).map (fun p => ('\t' :: p.1, p.2)) from by rw [parseStr.eq_def]; rfl]
      rw [ih z]
      rfl
    by_cases h5 : c = '\n'
    · subst h5
      rw [show (escapeChar '\n').data = ['\\', 'n'] from rfl]
      rw [show parseStr (['\\', 'n'] ++ (escChars cs ++ '"' :: z)) =
        (parseStr (escChars cs ++ '"' :: z)).map (fun p => ('\n' :: p.1, p.2)) from by rw [parseStr.eq_def]; rfl]
      rw [ih z]
      rfl
    by_cases h6 : c = '\x0c'
    · subst h6
      rw [show (escapeChar '\x0c').data = ['\\', 'f'] from rfl]
      rw [show parseStr (['\\', 'f'] ++ (escChars cs ++ '"' :: z)) =
        (parseStr (escChars cs ++ '"' :: z)).map (fun p => ('\x0c' :: p.1, p.2)) from by rw [parseStr.eq_def]; rfl]
      rw [ih z]
      rfl
    by_cases h7 : c = '\r'
    · subst h7
      rw [show (escapeChar '\r').data = ['\\', 'r'] from rfl]
      rw [show parseStr (['\\', 'r'] ++ (escChars cs ++ '"' :: z)) =
        (parseStr (escChars cs ++ '"' :: z)).map (fun p => ('\r' :: p.1, p.2)) from by rw [parseStr.eq_def]; rfl]
      rw [ih z]
      rfl
    by_cases h8 : c.toNat < 32
    · rw [show (escapeChar c).data =
        ['\\', 'u', '0', '0', hexChar (c.toNat / 16), hexChar (c.toNat % 16)] from by
          simp [escapeChar, h1, h2, h3, h4, h5, h6, h7, h8]]
      rw [show parseStr (['\\', 'u', '0', '0', hexChar (c.toNat / 16),
            hexChar (c.toNat % 16)] ++ (escChars cs ++ '"' :: z)) =
        (parseStr (escChars cs ++ '"' :: z)).map (fun p =>
          (Char.ofNat (hexVal '0' * 4096 + hexVal '0' * 256 +
            hexVal (hexChar (c.toNat / 16)) * 16 +
            hexVal (hexChar (c.toNat % 16))) :: p.1, p.2)) from by rw [parseStr.eq_def]; rfl]
      rw [ih z]
      rw [show hexVal '0' = 0 from rfl,
        hexVal_hexChar (c.toNat / 16) (by omega),
        hexVal_hexChar (c.toNat % 16) (Nat.mod_lt _ (by omega))]
      rw [show 0 * 4096 + 0 * 256 + c.toNat / 16 * 16 + c.toNat % 16 = c.toNat from by
        omega]
      rw [Char.ofNat_toNat]
      rfl
    · rw [show (escapeChar c).data = [c] from by
        simp [escapeChar, h1, h2, h3, h4, h5, h6, h7, h8, String.singleton]]
      rw [show ([c] : List Char) ++ (escChars cs ++ '"' :: z) =
        c :: (escChars cs ++ '"' :: z) from rfl]
      rw [show parseStr (c :: (escChars cs ++ '"' :: z)) =
        (parseStr (escChars cs ++ '"' :: z)).map (fun p => (c :: p.1, p.2)) from by
          rw [parseStr.eq_def]; simp [h1, h2]]
      rw [ih z]
      rfl

theorem not_isDigit_of_isWs (c : Char) (h : isWs c = true) : isDigit c = false := by
  simp only [isWs, Bool.or_eq_true, decide_eq_true_eq] at h
  rcases h with ((h | h) | h) | h <;> subst h <;> decide

theorem parseVal_digit_step (f : Nat) (c : Char) (r : List Char)
    (hc : isDigit c = true) :
    parseVal (f + 1) (c :: r) =
      some (.num ((valOf (readDigits (c :: r)).1 0 : Nat) : Int),
        (readDigits (c :: r)).2) := by
  rw [parseVal.eq_def]
  dsimp only
  rw [skipWs_cons_of_not_ws c r (not_isWs_of_isDigit c hc)]
  simp [hc]

theorem parseVal_neg_step (f : Nat) (r : List Char) :
    parseVal (f + 1) ('-' :: r) =
      (match readDigits r with
       | ([], _) => none
       | (e :: es, r2) => some (.num (-((valOf (e :: es) 0 : Nat) : Int)), r2)) := by
  rw [parseVal.eq_def]
  rfl

theorem parseVal_arr_step (f : Nat) (r : List Char) :
    parseVal (f + 1) ('[' :: r) =
      (match skipWs r with
       | [] => none
       | c2 :: r2 =>
         if c2 = ']' then some (.arr .nil, r2)
         else (parseElems f (c2 :: r2)).map (fun p => (.arr p.1, p.2))) := by
  rw [parseVal.eq_def]
  rfl

theorem parseVal_obj_step (f : Nat) (r : List Char) :
    parseVal (f + 1) ('\x7b' :: r) =
      (match skipWs r with
       | [] => none
       | c2 :: r2 =>
         if c2 = '\x7d' then some (.obj .nil, r2)
         else (parseFields f (c2 :: r2)).map (fun p => (.obj p.1, p.2))) := by
  rw [parseVal.eq_def]
  rfl

theorem parseElems_step (f : Nat) (s : List Char) :
    parseElems (f + 1) s =
      (match parseVal f s with
       | none => none
       | some (j, r) =>
         match skipWs r with
         | [] => none
         | c :: r2 =>
           if c = ',' then
             (parseElems f (skipWs r2)).map (fun p => (JsonElems.cons j p.1, p.2))
           else if c = ']' then some (JsonElems.cons j .nil, r2)
           else none) := by
  rw [parseElems.eq_def]

theorem parseFields_quote_step (f : Nat) (r : List Char) :
    parseFields (f + 1) ('"' :: r) =
      (match parseStr r with
       | none => none
       | some (ks, r1) =>
         match skipWs r1 with
         | [] => none
         | c2 :: r2 =>
           if c2 = ':' then
             match parseVal f r2 with
             | none => none
             | some (j, r3) =>
               match skipWs r3 with
               | [] => none
               | c3 :: r4 =>
                 if c3 = ',' then
                   (parseFields f (skipWs r4)).map
                     (fun p => (JsonFields.cons (String.mk ks) j p.1, p.2))
                 else if c3 = '\x7d' then
                   some (JsonFields.cons (String.mk ks) j .nil, r4)
                 else none
           else none) := by
  rw [parseFields.eq_def]
  rfl

theorem quoteStr_data (s : String) :
    (quoteStr s).data = '"' :: (escChars s.data ++ ['"']) := rfl

theorem strJson_head (j : Json) (d : Nat) :
    ∃ c t, (strJson j d).data = c :: t ∧ isWs c = false ∧ ¬ c = ']' ∧ ¬ c = '\x7d' := by
  cases j with
  | null => refine ⟨_, _, rfl, ?_, ?_, ?_⟩ <;> decide
  | bool b => cases b <;> (refine ⟨_, _, rfl, ?_, ?_, ?_⟩ <;> decide)
  | num n =>
    by_cases hn : n < 0
    · refine ⟨'-', (natDigits (-n).toNat), ?_, by decide, by decide, by decide⟩
      rw [show strJson (Json.num n) d = intStr n from rfl,
        show intStr n = "-" ++ String.mk (natDigits (-n).toNat) from by
          simp [intStr, hn]]
      rfl
    · rcases hds : natDigits n.toNat with _ | ⟨d0, ds⟩
      · exact absurd hds (natDigitsF_ne_nil n.toNat n.toNat)
      · have hd0 : isDigit d0 = true :=
          natDigitsF_all_digits (n.toNat + 1) n.toNat d0 (by
            rw [show natDigitsF (n.toNat + 1) n.toNat = natDigits n.toNat from rfl,
              hds]
            exact List.mem_cons_self d0 ds)
        refine ⟨d0, ds, ?_, not_isWs_of_isDigit d0 hd0, ne_rbracket_of_isDigit d0 hd0, ?_⟩
        · rw [show strJson (Json.num n) d = intStr n from rfl,
            show intStr n = String.mk (natDigits n.toNat) from by simp [intStr, hn],
            show (String.mk (natDigits n.toNat)).data = natDigits n.toNat from rfl, hds]
        · rintro rfl
          simp only [isDigit, Bool.and_eq_true, decide_eq_true_eq] at hd0
          exact absurd hd0 (by decide)
  | str s => refine ⟨_, _, quoteStr_data s, ?_, ?_, ?_⟩ <;> decide
  | arr es => cases es <;> (refine ⟨_, _, rfl, ?_, ?_, ?_⟩ <;> decide)
  | obj fs => cases fs <;> (refine ⟨_, _, rfl, ?_, ?_, ?_⟩ <;> decide)

theorem strElems_nil_data (d : Nat) : (strElems JsonElems.nil d).data = [] := rfl

theorem strFields_nil_data (d : Nat) : (strFields JsonFields.nil d).data = [] := rfl

theorem strJson_arr_cons_data (x : Json) (xs : JsonElems) (d : Nat) (rest : List Char) :
    (strJson (Json.arr (JsonElems.cons x xs)) d).data ++ rest =
      '[' :: '\n' :: ((indent (d + 1)).data ++ ((strJson x (d + 1)).data ++
        ((strElems xs (d + 1)).data ++
          ('\n' :: ((indent d).data ++ (']' :: rest)))))) := by
  rw [show strJson (Json.arr (JsonElems.cons x xs)) d =
    "[\n" ++ indent (d + 1) ++ strJson x (d + 1) ++ strElems xs (d + 1) ++ "\n" ++
      indent d ++ "]" from rfl]
  simp only [data_append, List.append_assoc, List.cons_append, List.nil_append,
    show "[\n".data = ['[', '\n'] from rfl, show "\n".data = ['\n'] from rfl,
    show "]".data = [']'] from rfl]

theorem strJson_obj_cons_data (k : String) (v : Json) (fs : JsonFields) (d : Nat)
    (rest : List Char) :
    (strJson (Json.obj (JsonFields.cons k v fs)) d).data ++ rest =
      '\x7b' :: '\n' :: ((indent (d + 1)).data ++ ((quoteStr k).data ++ (':' :: ' ' ::
        ((strJson v (d + 1)).data ++ ((strFields fs (d + 1)).data ++
          ('\n' :: ((indent d).data ++ ('\x7d' :: rest)))))))) := by
  rw [show strJson (Json.obj (JsonFields.cons k v fs)) d =
    "\x7b\n" ++ indent (d + 1) ++ quoteStr k ++ ": " ++ strJson v (d + 1) ++
      strFields fs (d + 1) ++ "\n" ++ indent d ++ "\x7d" from rfl]
  simp only [data_append, List.append_assoc, List.cons_append, List.nil_append,
    show "\x7b\n".data = ['\x7b', '\n'] from rfl, show "\n".data = ['\n'] from rfl,
    show "\x7d".data = ['\x7d'] from rfl, show ": ".data = [':', ' '] from rfl]

theorem strElems_cons_data (y : Json) (ys : JsonElems) (d : Nat) (rest : List Char) :
    (strElems (JsonElems.cons y ys) d).data ++ rest =
      ',' :: '\n' :: ((indent d).data ++ ((strJson y d).data ++
        ((strElems ys d).data ++ rest))) := by
  rw [show strElems (JsonElems.cons y ys) d =
    ",\n" ++ indent d ++ strJson y d ++ strElems ys d from rfl]
  simp only [data_append, List.append_assoc, List.cons_append, List.nil_append,
    show ",\n".data = [',', '\n'] from rfl]

theorem strFields_cons_data (k2 : String) (v2 : Json) (fs2 : JsonFields) (d : Nat)
    (rest : List Char) :
    (strFields (JsonFields.cons k2 v2 fs2) d).data ++ rest =
      ',' :: '\n' :: ((indent d).data ++ ((quoteStr k2).data ++ (':' :: ' ' ::
        ((strJson v2 d).data ++ ((strFields fs2 d).data ++ rest))))) := by
  rw [show strFields (JsonFields.cons k2 v2 fs2) d =
    ",\n" ++ indent d ++ quoteStr k2 ++ ": " ++ strJson v2 d ++ strFields fs2 d
    from rfl]
  simp only [data_append, List.append_assoc, List.cons_append, List.nil_append,
    show ",\n".data = [',', '\n'] from rfl, show ": ".data = [':', ' '] from rfl]

theorem weight_pos (j : Json) : 1 ≤ weight j := by
  cases j with
  | null => simp [weight]
  | bool b => simp [weight]
  | num n => simp [weight]
  | str s => simp [weight]
  | arr es => cases es <;> simp [weight]
  | obj fs => cases fs <;> simp [weight]

theorem parseVal_digit_full (f : Nat) (c : Char) (r ds r2 : List Char)
    (hc : isDigit c = true) (hrd : readDigits (c :: r) = (ds, r2)) :
    parseVal (f + 1) (c :: r) = some (.num ((valOf ds 0 : Nat) : Int), r2) := by
  rw [parseVal_digit_step f c r hc, hrd]

theorem parseVal_neg_full (f : Nat) (r : List Char) (e : Char) (es r2 : List Char)
    (hrd : readDigits r = (e :: es, r2)) :
    parseVal (f + 1) ('-' :: r) =
      some (.num (-((valOf (e :: es) 0 : Nat) : Int)), r2) := by
  rw [parseVal_neg_step, hrd]

/-- Main printer/parser agreement, by induction on the parser's fuel:
with enough fuel, parsing the printout of a value (at any depth, followed
by any non-digit-headed残 suffix) returns exactly that value. -/
theorem parse_print_spec (fuel : Nat) :
    (∀ j d rest, weight j ≤ fuel → headNotDigit rest →
      parseVal fuel ((strJson j d).data ++ rest) = some (j, rest)) ∧
    (∀ x xs d w rest, weightE (JsonElems.cons x xs) ≤ fuel → allWs w →
      parseElems fuel ((strJson x d).data ++ ((strElems xs d).data ++
        (w ++ (']' :: rest)))) = some (JsonElems.cons x xs, rest)) ∧
    (∀ k v fs d w rest, weightF (JsonFields.cons k v fs) ≤ fuel → allWs w →
      parseFields fuel ((quoteStr k).data ++ (':' :: ' ' ::
        ((strJson v d).data ++ ((strFields fs d).data ++
          (w ++ ('\x7d' :: rest)))))) = some (JsonFields.cons k v fs, rest)) := by
  induction fuel with
  | zero =>
    refine ⟨?_, ?_, ?_⟩
    · intro j d rest hw _
      exact absurd (le_trans (weight_pos j) hw) (by omega)
    · intro x xs d w rest hw _
      simp [weightE] at hw
    · intro k v fs d w rest hw _
      simp [weightF] at hw
  | succ f ih =>
    obtain ⟨ihV, ihE, ihF⟩ := ih
    refine ⟨?_, ?_, ?_⟩
    · intro j d rest hw hrest
      cases j with
      | null => exact rfl
      | bool b => cases b <;> exact rfl
      | num n =>
        rw [show (strJson (Json.num n) d).data = (intStr n).data from rfl]
        by_cases hn : n < 0
        · rcases hds : natDigits (-n).toNat with _ | ⟨d0, ds⟩
          · exact absurd hds (natDigitsF_ne_nil (-n).toNat (-n).toNat)
          · have hall : ∀ c ∈ d0 :: ds, isDigit c = true := by
              intro c hc
              refine natDigitsF_all_digits ((-n).toNat + 1) (-n).toNat c ?_
              rw [show natDigitsF ((-n).toNat + 1) (-n).toNat =
                natDigits (-n).toNat from rfl, hds]
              exact hc
            rw [show (intStr n).data = '-' :: natDigits (-n).toNat from by
              rw [show intStr n = "-" ++ String.mk (natDigits (-n).toNat) from by
                simp [intStr, hn]]
              rfl]
            rw [hds]
            rw [show (('-' :: (d0 :: ds)) ++ rest) =
              '-' :: ((d0 :: ds) ++ rest) from rfl]
            rw [parseVal_neg_full f ((d0 :: ds) ++ rest) d0 ds rest
              (readDigits_append (d0 :: ds) rest hall hrest)]
            rw [show valOf (d0 :: ds) 0 = (-n).toNat from by
              rw [← hds]; exact valOf_natDigits _]
            rw [Int.toNat_of_nonneg (by omega), neg_neg]
        · rcases hds : natDigits n.toNat with _ | ⟨d0, ds⟩
          · exact absurd hds (natDigitsF_ne_nil n.toNat n.toNat)
          · have hall : ∀ c ∈ d0 :: ds, isDigit c = true := by
              intro c hc
              refine natDigitsF_all_digits (n.toNat + 1) n.toNat c ?_
              rw [show natDigitsF (n.toNat + 1) n.toNat =
                natDigits n.toNat from rfl, hds]
              exact hc
            have hd0 : isDigit d0 = true := hall d0 (List.mem_cons_self d0 ds)
            rw [show (intStr n).data = natDigits n.toNat from by
              rw [show intStr n = String.mk (natDigits n.toNat) from by
                simp [intStr, hn]]]
            rw [hds]
            rw [show ((d0 :: ds) ++ rest) = d0 :: (ds ++ rest) from rfl]
            rw [parseVal_digit_full f d0 (ds ++ rest) (d0 :: ds) rest hd0
              (readDigits_append (d0 :: ds) rest hall hrest)]
            rw [show valOf (d0 :: ds) 0 = n.toNat from by
              rw [← hds]; exact valOf_natDigits _]
            rw [Int.toNat_of_nonneg (by omega)]
      | str s =>
        rw [show (strJson (Json.str s) d).data ++ rest =
          '"' :: (escChars s.data ++ ('"' :: rest)) from by
            rw [show (strJson (Json.str s) d).data = (quoteStr s).data from rfl,
              quoteStr_data]
            simp [List.append_assoc]]
        rw [show parseVal (f + 1) ('"' :: (escChars s.data ++ ('"' :: rest))) =
          (parseStr (escChars s.data ++ ('"' :: rest))).map
            (fun p => (Json.str (String.mk p.1), p.2)) from by
              rw [parseVal.eq_def]; rfl]
        rw [parseStr_escChars s.data rest]
        rfl
      | arr es =>
        cases es with
        | nil => exact rfl
        | cons x xs =>
          have hwE : weightE (JsonElems.cons x xs) ≤ f := by
            simp only [weight] at hw
            omega
          rw [strJson_arr_cons_data x xs d rest, parseVal_arr_step]
          rw [show skipWs ('\n' :: ((indent (d + 1)).data ++ ((strJson x (d + 1)).data ++
              ((strElems xs (d + 1)).data ++
                ('\n' :: ((indent d).data ++ (']' :: rest))))))) =
            skipWs ((indent (d + 1)).data ++ ((strJson x (d + 1)).data ++
              ((strElems xs (d + 1)).data ++
                ('\n' :: ((indent d).data ++ (']' :: rest)))))) from rfl]
          rw [skipWs_append_of_allWs _ _ (allWs_indent (d + 1))]
          obtain ⟨c0, t0, hx, hws0, hnb0, _⟩ := strJson_head x (d + 1)
          rw [hx]
          rw [show ((c0 :: t0) ++ ((strElems xs (d + 1)).data ++
              ('\n' :: ((indent d).data ++ (']' :: rest))))) =
            c0 :: (t0 ++ ((strElems xs (d + 1)).data ++
              ('\n' :: ((indent d).data ++ (']' :: rest))))) from rfl]
          rw [skipWs_cons_of_not_ws _ _ hws0]
          dsimp only
          rw [if_neg hnb0]
          rw [show c0 :: (t0 ++ ((strElems xs (d + 1)).data ++
              ('\n' :: ((indent d).data ++ (']' :: rest))))) =
            (c0 :: t0) ++ ((strElems xs (d + 1)).data ++
              ('\n' :: ((indent d).data ++ (']' :: rest)))) from rfl]
          rw [← hx]
          rw [show ('\n' :: ((indent d).data ++ (']' :: rest))) =
            (('\n' :: (indent d).data) ++ (']' :: rest)) from rfl]
          rw [ihE x xs (d + 1) ('\n' :: (indent d).data) rest hwE
            (allWs_newline_indent d)]
          rfl
      | obj fs =>
        cases fs with
        | nil => exact rfl
        | cons k v gs =>
          have hwF : weightF (JsonFields.cons k v gs) ≤ f := by
            simp only [weight] at hw
            omega
          rw [strJson_obj_cons_data k v gs d rest, parseVal_obj_step]
          rw [show skipWs ('\n' :: ((indent (d + 1)).data ++ ((quoteStr k).data ++
              (':' :: ' ' :: ((strJson v (d + 1)).data ++ ((strFields gs (d + 1)).data ++
                ('\n' :: ((indent d).data ++ ('\x7d' :: rest))))))))) =
            skipWs ((indent (d + 1)).data ++ ((quoteStr k).data ++
              (':' :: ' ' :: ((strJson v (d + 1)).data ++ ((strFields gs (d + 1)).data ++
                ('\n' :: ((indent d).data ++ ('\x7d' :: rest)))))))) from rfl]
          rw [skipWs_append_of_allWs _ _ (allWs_indent (d + 1))]
          rw [quoteStr_data k]
          rw [show (('"' :: (escChars k.data ++ ['"'])) ++
              (':' :: ' ' :: ((strJson v (d + 1)).data ++ ((strFields gs (d + 1)).data ++
                ('\n' :: ((indent d).data ++ ('\x7d' :: rest))))))) =
            '"' :: ((escChars k.data ++ ['"']) ++
              (':' :: ' ' :: ((strJson v (d + 1)).data ++ ((strFields gs (d + 1)).data ++
                ('\n' :: ((indent d).data ++ ('\x7d' :: rest))))))) from rfl]
          rw [skipWs_cons_of_not_ws '"' _ (by decide)]
          dsimp only
          rw [if_neg (by decide : ¬ ('"' : Char) = '\x7d')]
          rw [show '"' :: ((escChars k.data ++ ['"']) ++
              (':' :: ' ' :: ((strJson v (d + 1)).data ++ ((strFields gs (d + 1)).data ++
                ('\n' :: ((indent d).data ++ ('\x7d' :: rest))))))) =
            (quoteStr k).data ++
              (':' :: ' ' :: ((strJson v (d + 1)).data ++ ((strFields gs (d + 1)).data ++
                ('\n' :: ((indent d).data ++ ('\x7d' :: rest)))))) from by
              rw [quoteStr_data]
              simp [List.append_assoc]]
          rw [show ('\n' :: ((indent d).data ++ ('\x7d' :: rest))) =
            (('\n' :: (indent d).data) ++ ('\x7d' :: rest)) from rfl]
          rw [ihF k v gs (d + 1) ('\n' :: (indent d).data) rest hwF
            (allWs_newline_indent d)]
          rfl
    · intro x xs d w rest hwe hallw
      have hwx : weight x ≤ f := by simp only [weightE] at hwe; omega
      have hrest1 : headNotDigit ((strElems xs d).data ++ (w ++ (']' :: rest))) := by
        cases xs with
        | nil =>
          rw [strElems_nil_data, List.nil_append]
          cases w with
          | nil => show isDigit ']' = false; decide
          | cons cw w2 =>
            show isDigit cw = false
            exact not_isDigit_of_isWs cw (hallw cw (List.mem_cons_self cw w2))
        | cons y ys =>
          rw [strElems_cons_data]
          show isDigit ',' = false
          decide
      rw [parseElems_step, ihV x d _ hwx hrest1]
      dsimp only
      cases xs with
      | nil =>
        rw [strElems_nil_data, List.nil_append, skipWs_append_of_allWs w _ hallw,
          skipWs_cons_of_not_ws ']' rest (by decide)]
        rfl
      | cons y ys =>
        have hwy : weightE (JsonElems.cons y ys) ≤ f := by
          simp only [weightE] at hwe ⊢
          omega
        rw [strElems_cons_data y ys d (w ++ (']' :: rest))]
        rw [skipWs_cons_of_not_ws ',' _ (by decide)]
        dsimp only
        rw [show skipWs ('\n' :: ((indent d).data ++ ((strJson y d).data ++
            ((strElems ys d).data ++ (w ++ (']' :: rest)))))) =
          skipWs ((indent d).data ++ ((strJson y d).data ++
            ((strElems ys d).data ++ (w ++ (']' :: rest))))) from rfl]
        rw [skipWs_append_of_allWs _ _ (allWs_indent d)]
        obtain ⟨c0, t0, hy, hws0, _, _⟩ := strJson_head y d
        rw [hy]
        rw [show ((c0 :: t0) ++ ((strElems ys d).data ++ (w ++ (']' :: rest)))) =
          c0 :: (t0 ++ ((strElems ys d).data ++ (w ++ (']' :: rest)))) from rfl]
        rw [skipWs_cons_of_not_ws _ _ hws0]
        rw [show c0 :: (t0 ++ ((strElems ys d).data ++ (w ++ (']' :: rest)))) =
          (c0 :: t0) ++ ((strElems ys d).data ++ (w ++ (']' :: rest))) from rfl]
        rw [← hy]
        rw [ihE y ys d w rest hwy hallw]
        rfl
    · intro k v fs d w rest hwf hallw
      have hwv : weight v ≤ f := by simp only [weightF] at hwf; omega
      rw [show ((quoteStr k).data ++ (':' :: ' ' ::
          ((strJson v d).data ++ ((strFields fs d).data ++ (w ++ ('\x7d' :: rest)))))) =
        '"' :: (escChars k.data ++ ('"' :: (':' :: ' ' ::
          ((strJson v d).data ++ ((strFields fs d).data ++
            (w ++ ('\x7d' :: rest))))))) from by
          rw [quoteStr_data]
          simp [List.append_assoc]]
      rw [parseFields_quote_step, parseStr_escChars k.data]
      dsimp only
      rw [skipWs_cons_of_not_ws ':' _ (by decide)]
      dsimp only
      rw [show (' ' :: ((strJson v d).data ++ ((strFields fs d).data ++
          (w ++ ('\x7d' :: rest))))) =
        [' '] ++ ((strJson v d).data ++ ((strFields fs d).data ++
          (w ++ ('\x7d' :: rest)))) from rfl]
      rw [parseVal_ws_irrel f [' '] _ (by
        intro c hc
        rw [List.mem_singleton] at hc
        rw [hc]
        rfl)]
      have hrest3 : headNotDigit ((strFields fs d).data ++ (w ++ ('\x7d' :: rest))) := by
        cases fs with
        | nil =>
          rw [strFields_nil_data, List.nil_append]
          cases w with
          | nil => show isDigit '\x7d' = false; decide
          | cons cw w2 =>
            show isDigit cw = false
            exact not_isDigit_of_isWs cw (hallw cw (List.mem_cons_self cw w2))
        | cons k2 v2 fs2 =>
          rw [strFields_cons_data]
          show isDigit ',' = false
          decide
      rw [ihV v d _ hwv hrest3]
      dsimp only
      cases fs with
      | nil =>
        rw [strFields_nil_data, List.nil_append, skipWs_append_of_allWs w _ hallw,
          skipWs_cons_of_not_ws '\x7d' rest (by decide)]
        rfl
      | cons k2 v2 fs2 =>
        have hwf2 : weightF (JsonFields.cons k2 v2 fs2) ≤ f := by
          simp only [weightF] at hwf ⊢
          omega
        rw [strFields_cons_data k2 v2 fs2 d (w ++ ('\x7d' :: rest))]
        rw [skipWs_cons_of_not_ws ',' _ (by decide)]
        dsimp only
        rw [show skipWs ('\n' :: ((indent d).data ++ ((quoteStr k2).data ++
            (':' :: ' ' :: ((strJson v2 d).data ++ ((strFields fs2 d).data ++
              (w ++ ('\x7d' :: rest)))))))) =
          skipWs ((indent d).data ++ ((quoteStr k2).data ++
            (':' :: ' ' :: ((strJson v2 d).data ++ ((strFields fs2 d).data ++
              (w ++ ('\x7d' :: rest))))))) from rfl]
        rw [skipWs_append_of_allWs _ _ (allWs_indent d)]
        rw [quoteStr_data k2]
        rw [show (('"' :: (escChars k2.data ++ ['"'])) ++
            (':' :: ' ' :: ((strJson v2 d).data ++ ((strFields fs2 d).data ++
              (w ++ ('\x7d' :: rest)))))) =
          '"' :: ((escChars k2.data ++ ['"']) ++
            (':' :: ' ' :: ((strJson v2 d).data ++ ((strFields fs2 d).data ++
              (w ++ ('\x7d' :: rest)))))) from rfl]
        rw [skipWs_cons_of_not_ws '"' _ (by decide)]
        rw [show '"' :: ((escChars k2.data ++ ['"']) ++
            (':' :: ' ' :: ((strJson v2 d).data ++ ((strFields fs2 d).data ++
              (w ++ ('\x7d' :: rest)))))) =
          (quoteStr k2).data ++
            (':' :: ' ' :: ((strJson v2 d).data ++ ((strFields fs2 d).data ++
              (w ++ ('\x7d' :: rest))))) from by
            rw [quoteStr_data]
            simp [List.append_assoc]]
        rw [ihF k2 v2 fs2 d w rest hwf2 hallw]
        rfl

theorem weight_le_length_aux (n : Nat) :
    (∀ j, weight j ≤ n → ∀ d, weight j ≤ (strJson j d).data.length) ∧
    (∀ xs, weightE xs ≤ n → ∀ d, weightE xs ≤ (strElems xs d).data.length + 1) ∧
    (∀ fs, weightF fs ≤ n → ∀ d, weightF fs ≤ (strFields fs d).data.length + 1) := by
  induction n with
  | zero =>
    refine ⟨?_, ?_, ?_⟩
    · intro j hw _
      exact absurd (le_trans (weight_pos j) hw) (by omega)
    · intro xs hw d
      cases xs with
      | nil => simp [weightE]
      | cons y ys => simp [weightE] at hw
    · intro fs hw d
      cases fs with
      | nil => simp [weightF]
      | cons k v gs => simp [weightF] at hw
  | succ m ih =>
    obtain ⟨ih1, ih2, ih3⟩ := ih
    refine ⟨?_, ?_, ?_⟩
    · intro j hw d
      cases j with
      | null =>
        obtain ⟨c0, t0, hx, _, _, _⟩ := strJson_head Json.null d
        rw [hx]
        simp [weight]
      | bool b =>
        obtain ⟨c0, t0, hx, _, _, _⟩ := strJson_head (Json.bool b) d
        rw [hx]
        simp [weight]
      | num n2 =>
        obtain ⟨c0, t0, hx, _, _, _⟩ := strJson_head (Json.num n2) d
        rw [hx]
        simp [weight]
      | str s =>
        obtain ⟨c0, t0, hx, _, _, _⟩ := strJson_head (Json.str s) d
        rw [hx]
        simp [weight]
      | arr es =>
        cases es with
        | nil =>
          obtain ⟨c0, t0, hx, _, _, _⟩ := strJson_head (Json.arr JsonElems.nil) d
          rw [hx]
          simp [weight]
        | cons x xs =>
          have h1 : weight x ≤ m := by simp [weight, weightE] at hw; omega
          have h2 : weightE xs ≤ m := by simp [weight, weightE] at hw; omega
          have hx := ih1 x h1 (d + 1)
          have hE := ih2 xs h2 (d + 1)
          have hdata := strJson_arr_cons_data x xs d []
          rw [List.append_nil] at hdata
          rw [hdata]
          simp only [weight, weightE, List.length_cons, List.length_append]
          omega
      | obj fs =>
        cases fs with
        | nil =>
          obtain ⟨c0, t0, hx, _, _, _⟩ := strJson_head (Json.obj JsonFields.nil) d
          rw [hx]
          simp [weight]
        | cons k v gs =>
          have h1 : weight v ≤ m := by simp [weight, weightF] at hw; omega
          have h2 : weightF gs ≤ m := by simp [weight, weightF] at hw; omega
          have hv := ih1 v h1 (d + 1)
          have hF := ih3 gs h2 (d + 1)
          have hdata := strJson_obj_cons_data k v gs d []
          rw [List.append_nil] at hdata
          rw [hdata]
          simp only [weight, weightF, List.length_cons, List.length_append]
          omega
    · intro xs hw d
      cases xs with
      | nil => simp [weightE]
      | cons y ys =>
        have h1 : weight y ≤ m := by simp [weightE] at hw; omega
        have h2 : weightE ys ≤ m := by simp [weightE] at hw; omega
        have hy := ih1 y h1 d
        have hys := ih2 ys h2 d
        have hdata := strElems_cons_data y ys d []
        rw [List.append_nil] at hdata
        rw [hdata]
        simp only [weightE, List.length_cons, List.length_append]
        omega
    · intro fs hw d
      cases fs with
      | nil => simp [weightF]
      | cons k v gs =>
        have h1 : weight v ≤ m := by simp [weightF] at hw; omega
        have h2 : weightF gs ≤ m := by simp [weightF] at hw; omega
        have hv := ih1 v h1 d
        have hgs := ih3 gs h2 d
        have hdata := strFields_cons_data k v gs d []
        rw [List.append_nil] at hdata
        rw [hdata]
        simp only [weightF, List.length_cons, List.length_append]
        omega

/-- Round trip: parsing the pretty-printed JSON of any value yields the
value back ("output JSON, when parsed, deep-equals" the printed value). -/
theorem parseJson_stringify (j : Json) : parseJson (stringify j) = some j := by
  have hfuel : weight j ≤ (stringify j).length + 1 := by
    have h := (weight_le_length_aux (weight j)).1 j (le_refl _) 0
    calc weight j ≤ (strJson j 0).data.length := h
      _ ≤ (stringify j).length + 1 := by
          rw [show (stringify j).length = (strJson j 0).data.length from rfl]
          omega
  have hspec := (parse_print_spec ((stringify j).length + 1)).1 j 0 [] hfuel True.intro
  rw [List.append_nil] at hspec
  rw [show parseJson (stringify j) =
    (match parseVal ((stringify j).length + 1) (stringify j).data with
     | some (r, rest) => if (skipWs rest).isEmpty then some r else none
     | none => none) from rfl]
  rw [show (stringify j).data = (strJson j 0).data from rfl, hspec]
  rfl

/-! ## Claims -/

set_option maxRecDepth 40000 in
/-- C3: for every tool invocation made when no credential is configured
(`TRADEKIX_API_KEY` absent or empty), the call fails before any network
request is attempted (the trace of issued requests is empty), and the
failure message contains the name of the missing variable, where to obtain
a key, and the exact provisioning `curl` call. -/
theorem C3_missing_key_fails_before_network (env : Option String)
    (h : env = none ∨ env = some "") (endpoint : String)
    (params : Option (List (String × ParamVal))) (net : Request → FetchOutcome) :
    makeRequest env endpoint params net =
      (.error (.thrown apiKeyErrorMessage), []) ∧
    containsSub apiKeyErrorMessage "TRADEKIX_API_KEY" ∧
    containsSub apiKeyErrorMessage "https://www.tradekix.ai/ai-agent-access" ∧
    containsSub apiKeyErrorMessage
      "curl -X POST https://tradekix-alpha.vercel.app/api/v1/connect" := by
  refine ⟨?_, by decide, by decide, by decide⟩
  rcases h with h | h <;> subst h <;> rfl

/-- Witness for C3: a concrete invocation with the variable unset. -/
theorem C3_missing_key_fails_before_network_witness :
    makeRequest none "market/overview" none (fun _ => FetchOutcome.networkError) =
      (.error (.thrown apiKeyErrorMessage), []) ∧
    containsSub apiKeyErrorMessage "TRADEKIX_API_KEY" ∧
    containsSub apiKeyErrorMessage "https://www.tradekix.ai/ai-agent-access" ∧
    containsSub apiKeyErrorMessage
      "curl -X POST https://tradekix-alpha.vercel.app/api/v1/connect" :=
  C3_missing_key_fails_before_network none (Or.inl rfl) "market/overview" none _

/-- C4: an entry appears in the outbound query string exactly when the
corresponding parameter is a defined, non-empty string; parameters that
are `undefined`, `null` or `""` never appear (stated for any parameter
record, i.e. any entry list with distinct keys). -/
theorem C4_query_contains_exactly_defined_nonempty (key endpoint : String)
    (params : List (String × ParamVal)) (hnodup : (params.map Prod.fst).Nodup)
    (k v : String) :
    ((k, v) ∈ (buildRequest key endpoint (some params)).url.query ↔
      ((k, ParamVal.str v) ∈ params ∧ ¬ v = "")) := by
  show (k, v) ∈ buildQuery params ↔ _
  rw [buildQuery_eq_filterMap params hnodup]
  exact mem_filterMap_keepParam params k v

/-- Witness for C4: a concrete record with a kept, an empty, an
`undefined` and a `null` parameter. -/
theorem C4_query_contains_exactly_defined_nonempty_witness :
    (("symbol", "AAPL") ∈ (buildRequest "k0" "market/prices"
        (some [("symbol", ParamVal.str "AAPL"), ("from", ParamVal.str ""),
          ("to", ParamVal.undef), ("limit", ParamVal.nullv)])).url.query ↔
      (("symbol", ParamVal.str "AAPL") ∈
          [("symbol", ParamVal.str "AAPL"), ("from", ParamVal.str ""),
            ("to", ParamVal.undef), ("limit", ParamVal.nullv)] ∧ ¬ "AAPL" = "")) :=
  C4_query_contains_exactly_defined_nonempty "k0" "market/prices" _
    (by decide) "symbol" "AAPL"

/-- C8: the credential is carried only in the dedicated `X-API-Key`
header; the URL (path and query) of every issued request is the same for
any two runs that differ only in the credential value. -/
theorem C8_url_independent_of_credential (k1 k2 : String)
    (h1 : ¬ k1 = "") (h2 : ¬ k2 = "") (endpoint : String)
    (params : Option (List (String × ParamVal)))
    (net1 net2 : Request → FetchOutcome) :
    (makeRequest (some k1) endpoint params net1).2.map Request.url =
      (makeRequest (some k2) endpoint params net2).2.map Request.url ∧
    ∀ req ∈ (makeRequest (some k1) endpoint params net1).2,
      req.url = buildUrl endpoint params ∧ req.headers = [("X-API-Key", k1)] := by
  rw [makeRequest_trace k1 h1 endpoint params net1,
    makeRequest_trace k2 h2 endpoint params net2]
  refine ⟨rfl, ?_⟩
  intro req hreq
  rw [List.mem_singleton] at hreq
  subst hreq
  exact ⟨rfl, rfl⟩

/-- Witness for C8: two concrete runs differing only in the key issue
requests with identical URLs. -/
theorem C8_url_independent_of_credential_witness :
    (makeRequest (some "KEY-A") "market/overview" none
        (fun _ => FetchOutcome.networkError)).2.map Request.url =
      (makeRequest (some "KEY-B") "market/overview" none
        (fun _ => FetchOutcome.networkError)).2.map Request.url :=
  (C8_url_independent_of_credential "KEY-A" "KEY-B" (by decide) (by decide)
    "market/overview" none _ _).1

/-- C10: the `prices` handler invoked with an empty `symbol` still
delegates to the adapter, and exactly one outbound request is issued, to
`market/prices` with no query parameters at all: the required-but-empty
`symbol` is silently dropped by the empty-string filter. -/
theorem C10_prices_empty_symbol_dropped (key : String) (hk : ¬ key = "")
    (net : Request → FetchOutcome) :
    (pricesTool (some key) net "" none none none).2 =
      [{ url := { path := BASE_URL ++ "/market/prices", query := [] },
         headers := [("X-API-Key", key)] }] := by
  show (makeRequest (some key) "market/prices"
    (some (pricesParams "" none none none)) net).2 = _
  rw [makeRequest_trace key hk]
  rfl

/-- Witness for C10: a concrete invocation with `symbol = ""`. -/
theorem C10_prices_empty_symbol_dropped_witness :
    (pricesTool (some "K") (fun _ => FetchOutcome.networkError)
        "" none none none).2 =
      [{ url := { path := BASE_URL ++ "/market/prices", query := [] },
         headers := [("X-API-Key", "K")] }] :=
  C10_prices_empty_symbol_dropped "K" (by decide) _

/-- C6: for every tool invocation whose upstream response has
`success = true` and a present `data` field, the ToolResult text equals
the pretty-printed JSON (`JSON.stringify(_, null, 2)`) of that `data`
field exactly, and parsing that output JSON deep-equals the `data` field
(round trip). -/
theorem C6_success_data_pretty_printed (key endpoint : String)
    (params : Option (List (String × ParamVal))) (net : Request → FetchOutcome)
    (j d : Json) (hk : ¬ key = "")
    (hnet : net (buildRequest key endpoint params) = .body (some j))
    (hs : getField j "success" = some (Json.bool true))
    (hd : getField j "data" = some d) :
    (runTool (some key) net endpoint params).1 =
      Except.ok { content := [{ type := "text", text := some (stringify d) }] } ∧
    parseJson (stringify d) = some d := by
  refine ⟨?_, parseJson_stringify d⟩
  have hres := makeRequest_result key hk endpoint params net j hnet
  have htr : truthy (getField j "success") = true := by rw [hs]; rfl
  have hp := processResponse_of_truthy j htr
  rw [hd] at hp
  show ((makeRequest (some key) endpoint params net).1.map wrapResult) = _
  rw [hres, hp]
  rfl

/-- Witness for C6 at the spec's example envelope
`\x7bsuccess: true, data: \x7b"x": 1\x7d\x7d`, together with the concrete
pretty-printed text and the concrete round trip. -/
theorem C6_success_data_pretty_printed_witness :
    ((runTool (some "K") (fun _ => FetchOutcome.body (some (Json.obj (jsonFieldsOf
        [("success", Json.bool true),
         ("data", Json.obj (jsonFieldsOf [("x", Json.num 1)]))]))))
      "market/overview" none).1 =
      Except.ok { content := [{ type := "text",
                                text := some (stringify (Json.obj
                                  (jsonFieldsOf [("x", Json.num 1)]))) }] } ∧
    parseJson (stringify (Json.obj (jsonFieldsOf [("x", Json.num 1)]))) =
      some (Json.obj (jsonFieldsOf [("x", Json.num 1)]))) ∧
    stringify (Json.obj (jsonFieldsOf [("x", Json.num 1)])) = "\x7b\n  \"x\": 1\n\x7d" :=
  ⟨C6_success_data_pretty_printed "K" "market/overview" none _ _ _
    (by decide) rfl rfl rfl, rfl⟩

/-- C5: the sentiment tool (and likewise the tweets tool) invoked with
`financial_only` set to the boolean `false` issues a request whose query
string contains the entry `financial_only=false`; an absent
`financial_only` is not forwarded at all. -/
theorem C5_financial_only_false_forwarded (key : String) (hk : ¬ key = "")
    (net net2 : Request → FetchOutcome) (sent author symbol sent2 : Option String) :
    (∀ req ∈ (sentimentTool (some key) net sent (some false)).2,
      ("financial_only", "false") ∈ req.url.query) ∧
    (∀ req ∈ (tweetsTool (some key) net2 author symbol sent2 (some false)).2,
      ("financial_only", "false") ∈ req.url.query) ∧
    (∀ req ∈ (sentimentTool (some key) net sent none).2,
      ∀ v, ¬ ("financial_only", v) ∈ req.url.query) := by
  refine ⟨?_, ?_, ?_⟩
  · intro req hreq
    rw [show (sentimentTool (some key) net sent (some false)).2 =
        (makeRequest (some key) "social/sentiment"
          (some (sentimentParams sent (some false))) net).2 from rfl,
      makeRequest_trace key hk, List.mem_singleton] at hreq
    subst hreq
    show ("financial_only", "false") ∈ buildQuery (sentimentParams sent (some false))
    rw [show sentimentParams sent (some false) =
        addIf "sentiment" sent ++ [("financial_only", ParamVal.str "false")] from rfl,
      buildQuery_append_kept _ _ _ (by decide)]
    exact mem_setParam_self _ _ _
  · intro req hreq
    rw [show (tweetsTool (some key) net2 author symbol sent2 (some false)).2 =
        (makeRequest (some key) "social/tweets"
          (some (tweetsParams author symbol sent2 (some false))) net2).2 from rfl,
      makeRequest_trace key hk, List.mem_singleton] at hreq
    subst hreq
    show ("financial_only", "false") ∈
      buildQuery (tweetsParams author symbol sent2 (some false))
    rw [show tweetsParams author symbol sent2 (some false) =
        (addIf "author" author ++ addIf "symbol" symbol ++ addIf "sentiment" sent2) ++
          [("financial_only", ParamVal.str "false")] from by
        simp [tweetsParams, stringOfBool],
      buildQuery_append_kept _ _ _ (by decide)]
    exact mem_setParam_self _ _ _
  · intro req hreq v
    rw [show (sentimentTool (some key) net sent none).2 =
        (makeRequest (some key) "social/sentiment"
          (some (sentimentParams sent none)) net).2 from rfl,
      makeRequest_trace key hk, List.mem_singleton] at hreq
    subst hreq
    intro hmem
    rcases mem_of_mem_foldl_buildStep (sentimentParams sent none) []
        "financial_only" v hmem with h | ⟨h1, _⟩
    · exact absurd h (List.not_mem_nil _)
    · cases sent with
      | none => simp [sentimentParams, addIf] at h1
      | some s =>
        by_cases hs : s = "" <;> simp [sentimentParams, addIf, hs] at h1

/-- Witness for C5: the concrete query entry for
`sentiment = some "bullish"`, `financial_only = some false`. -/
theorem C5_financial_only_false_forwarded_witness :
    ("financial_only", "false") ∈ (buildRequest "K" "social/sentiment"
      (some (sentimentParams (some "bullish") (some false)))).url.query :=
  (C5_financial_only_false_forwarded "K" (by decide)
      (fun _ => FetchOutcome.networkError) (fun _ => FetchOutcome.networkError)
      (some "bullish") none none none).1
    (buildRequest "K" "social/sentiment"
      (some (sentimentParams (some "bullish") (some false))))
    (by decide)

/-- C1 counterexample: the envelope
`\x7bsuccess: false, error: "quota exceeded", retry_after_seconds: 0\x7d`
has a present `retry_after_seconds` field, yet the normalized error object
rendered by the tool contains no `retry_after_seconds` key (the spread
fires on truthiness, and `0` is falsy), contradicting inclusion "exactly
when the field is present". -/
theorem C1_counterexample :
    getField (Json.obj (jsonFieldsOf [("success", Json.bool false),
        ("error", Json.str "quota exceeded"), ("retry_after_seconds", Json.num 0)]))
      "retry_after_seconds" = some (Json.num 0) ∧
    (runTool (some "K") (fun _ => FetchOutcome.body (some (Json.obj (jsonFieldsOf
        [("success", Json.bool false), ("error", Json.str "quota exceeded"),
         ("retry_after_seconds", Json.num 0)]))))
      "market/overview" none).1 =
      Except.ok { content := [{ type := "text",
                                text := some "\x7b\n  \"error\": \"quota exceeded\"\n\x7d" }] } :=
  ⟨rfl, rfl⟩

/-- C1 (amended): for every invocation whose upstream body parses as
non-null JSON with a falsy `success`, the handler returns (does not throw)
a ToolResult rendering a normalized error object whose `error` field is
the envelope's `error` field, and which contains the `upgrade` and/or
`retry_after_seconds` hints exactly when those fields are present *with a
truthy value* (in particular the envelope
`\x7bsuccess:false, error:"rate limited", retry_after_seconds:30\x7d`
yields `\x7berror, retry_after_seconds\x7d` with no `upgrade` key). -/
theorem C1_amended_error_normalization (key endpoint : String)
    (params : Option (List (String × ParamVal))) (net : Request → FetchOutcome)
    (j : Json) (hk : ¬ key = "")
    (hnet : net (buildRequest key endpoint params) = .body (some j))
    (hj : ¬ j = Json.null) (hs : truthy (getField j "success") = false) :
    ∃ fields : JsonFields,
      (runTool (some key) net endpoint params).1 =
        Except.ok { content := [{ type := "text",
                                  text := some (stringify (Json.obj fields)) }] } ∧
      lookupField fields "error" = getField j "error" ∧
      (∀ u, lookupField fields "upgrade" = some u ↔
        (getField j "upgrade" = some u ∧ truthy (getField j "upgrade") = true)) ∧
      (∀ r, lookupField fields "retry_after_seconds" = some r ↔
        (getField j "retry_after_seconds" = some r ∧
          truthy (getField j "retry_after_seconds") = true)) := by
  have hres := makeRequest_result key hk endpoint params net j hnet
  have hp := processResponse_of_falsy j hj hs
  refine ⟨fieldsAppend (optEntry "error" (getField j "error"))
    (fieldsAppend (optEntry "upgrade"
        (if truthy (getField j "upgrade") then getField j "upgrade" else none))
      (optEntry "retry_after_seconds"
        (if truthy (getField j "retry_after_seconds")
         then getField j "retry_after_seconds" else none))), ?_, ?_, ?_, ?_⟩
  · show ((makeRequest (some key) endpoint params net).1.map wrapResult) = _
    rw [hres, hp]
    rfl
  · rw [lookupField_errFields_error]
  · intro u
    rw [lookupField_errFields_upgrade]
    by_cases ht : truthy (getField j "upgrade") = true <;> simp [ht]
  · intro r
    rw [lookupField_errFields_retry]
    by_cases ht : truthy (getField j "retry_after_seconds") = true <;> simp [ht]

/-- Witness for the amended C1 at the spec's example envelope
`\x7bsuccess: false, error: "rate limited", retry_after_seconds: 30\x7d`. -/
theorem C1_amended_error_normalization_witness :
    ∃ fields : JsonFields,
      (runTool (some "K") (fun _ => FetchOutcome.body (some (Json.obj (jsonFieldsOf
          [("success", Json.bool false), ("error", Json.str "rate limited"),
           ("retry_after_seconds", Json.num 30)]))))
        "market/overview" none).1 =
        Except.ok { content := [{ type := "text",
                                  text := some (stringify (Json.obj fields)) }] } ∧
      lookupField fields "error" =
        getField (Json.obj (jsonFieldsOf
          [("success", Json.bool false), ("error", Json.str "rate limited"),
           ("retry_after_seconds", Json.num 30)])) "error" ∧
      (∀ u, lookupField fields "upgrade" = some u ↔
        (getField (Json.obj (jsonFieldsOf
            [("success", Json.bool false), ("error", Json.str "rate limited"),
             ("retry_after_seconds", Json.num 30)])) "upgrade" = some u ∧
          truthy (getField (Json.obj (jsonFieldsOf
            [("success", Json.bool false), ("error", Json.str "rate limited"),
             ("retry_after_seconds", Json.num 30)])) "upgrade") = true)) ∧
      (∀ r, lookupField fields "retry_after_seconds" = some r ↔
        (getField (Json.obj (jsonFieldsOf
            [("success", Json.bool false), ("error", Json.str "rate limited"),
             ("retry_after_seconds", Json.num 30)])) "retry_after_seconds" = some r ∧
          truthy (getField (Json.obj (jsonFieldsOf
            [("success", Json.bool false), ("error", Json.str "rate limited"),
             ("retry_after_seconds", Json.num 30)])) "retry_after_seconds") = true)) :=
  C1_amended_error_normalization "K" "market/overview" none _ _
    (by decide) rfl (by simp) rfl

/-- C2 counterexample: with a credential configured and an upstream body
that fails to parse as JSON, the handler does not return a ToolResult:
the rejection of `resp.json()` propagates out of the handler, and it is
not the missing-credential failure. -/
theorem C2_counterexample :
    (runTool (some "K") (fun _ => FetchOutcome.body none) "market/overview" none).1 =
      Except.error JsFault.jsonParseFailed ∧
    ¬ JsFault.jsonParseFailed = JsFault.thrown apiKeyErrorMessage :=
  ⟨rfl, by decide⟩

/-- C2 (amended): the handler's output is a ToolResult exactly when the
credential is configured (non-empty) and the upstream body parses as
non-null JSON; business-level upstream errors are converted into
ToolResults, while the missing-credential error, the `fetch` rejection,
the JSON-parse rejection and the null-body TypeError all propagate as
exceptions rather than being converted. -/
theorem C2_amended_toolresult_iff (env : Option String) (endpoint : String)
    (params : Option (List (String × ParamVal))) (net : Request → FetchOutcome) :
    (∃ t, (runTool env net endpoint params).1 = Except.ok t) ↔
      (∃ k j, env = some k ∧ ¬ k = "" ∧
        net (buildRequest k endpoint params) = .body (some j) ∧ ¬ j = Json.null) := by
  constructor
  · rintro ⟨t, ht⟩
    cases env with
    | none =>
      rw [show (runTool none net endpoint params).1 =
        Except.error (.thrown apiKeyErrorMessage) from rfl] at ht
      exact nomatch ht
    | some k =>
      by_cases hk : k = ""
      · subst hk
        rw [show (runTool (some "") net endpoint params).1 =
          Except.error (.thrown apiKeyErrorMessage) from rfl] at ht
        exact nomatch ht
      · cases hnet : net (buildRequest k endpoint params) with
        | networkError =>
          have hrun : (runTool (some k) net endpoint params).1 =
              Except.error .fetchFailed := by
            show ((makeRequest (some k) endpoint params net).1.map wrapResult) = _
            rw [makeRequest_networkError k hk endpoint params net hnet]
            rfl
          rw [hrun] at ht
          exact nomatch ht
        | body p =>
          cases p with
          | none =>
            have hrun : (runTool (some k) net endpoint params).1 =
                Except.error .jsonParseFailed := by
              show ((makeRequest (some k) endpoint params net).1.map wrapResult) = _
              rw [makeRequest_parseFailed k hk endpoint params net hnet]
              rfl
            rw [hrun] at ht
            exact nomatch ht
          | some j =>
            refine ⟨k, j, rfl, hk, hnet, ?_⟩
            intro hjn
            subst hjn
            have hrun : (runTool (some k) net endpoint params).1 =
                Except.error .typeError := by
              show ((makeRequest (some k) endpoint params net).1.map wrapResult) = _
              rw [makeRequest_result k hk endpoint params net _ hnet]
              rfl
            rw [hrun] at ht
            exact nomatch ht
  · rintro ⟨k, j, hek, hk, hnet, hj⟩
    subst hek
    obtain ⟨r, hr⟩ := processResponse_isOk j hj
    refine ⟨wrapResult r, ?_⟩
    show ((makeRequest (some k) endpoint params net).1.map wrapResult) = _
    rw [makeRequest_result k hk endpoint params net j hnet, hr]
    rfl

/-- C7 counterexample: an invocation with no credential configured makes
zero upstream round trips (not exactly one) and produces no ToolResult. -/
theorem C7_counterexample :
    (runTool none (fun _ => FetchOutcome.body (some (Json.obj (jsonFieldsOf
        [("success", Json.bool true), ("data", Json.num 1)]))))
      "market/overview" none).2.length = 0 ∧
    (runTool none (fun _ => FetchOutcome.body (some (Json.obj (jsonFieldsOf
        [("success", Json.bool true), ("data", Json.num 1)]))))
      "market/overview" none).1 =
      Except.error (JsFault.thrown apiKeyErrorMessage) :=
  ⟨rfl, rfl⟩

/-- C7 (amended): every invocation issues at most one upstream request
and never retries internally; whenever the credential is configured it
issues exactly one; and whenever additionally the body parses as non-null
JSON it produces exactly one ToolResult. -/
theorem C7_amended_at_most_one_round_trip (env : Option String) (endpoint : String)
    (params : Option (List (String × ParamVal))) (net : Request → FetchOutcome) :
    (runTool env net endpoint params).2.length ≤ 1 ∧
    (∀ k, env = some k → ¬ k = "" →
      (runTool env net endpoint params).2.length = 1) ∧
    (∀ k j, env = some k → ¬ k = "" →
      net (buildRequest k endpoint params) = .body (some j) → ¬ j = Json.null →
      ∃ t, (runTool env net endpoint params).1 = Except.ok t) := by
  refine ⟨?_, ?_, ?_⟩
  · cases env with
    | none =>
      rw [show (runTool none net endpoint params).2 = [] from rfl]
      exact Nat.zero_le 1
    | some k =>
      by_cases hk : k = ""
      · subst hk
        rw [show (runTool (some "") net endpoint params).2 = [] from rfl]
        exact Nat.zero_le 1
      · show (makeRequest (some k) endpoint params net).2.length ≤ 1
        rw [makeRequest_trace k hk endpoint params net]
        exact Nat.le_refl 1
  · intro k hek hk
    subst hek
    show (makeRequest (some k) endpoint params net).2.length = 1
    rw [makeRequest_trace k hk endpoint params net]
    rfl
  · intro k j hek hk hnet hj
    subst hek
    obtain ⟨r, hr⟩ := processResponse_isOk j hj
    refine ⟨wrapResult r, ?_⟩
    show ((makeRequest (some k) endpoint params net).1.map wrapResult) = _
    rw [makeRequest_result k hk endpoint params net j hnet, hr]
    rfl

/-- C9 counterexample: the upstream body that is the bare JSON value
`null` parses as valid JSON and has no `success` field, yet `makeRequest`
does not return a normalized error object: the TypeError from
`null.success` propagates as a fault. -/
theorem C9_counterexample :
    (runTool (some "K") (fun _ => FetchOutcome.body (some Json.null))
      "market/overview" none).1 = Except.error JsFault.typeError ∧
    (∀ t, ¬ (runTool (some "K") (fun _ => FetchOutcome.body (some Json.null))
      "market/overview" none).1 = Except.ok t) :=
  ⟨rfl, fun _ h => nomatch h⟩

/-- C9 (amended): for every upstream body that parses as JSON, is not the
bare JSON `null`, and whose `success` field is absent or falsy (missing
key, `false`, `0`, JSON `null`), `makeRequest` treats it as a
business-level error and returns a normalized error object whose `error`
field is the body's `error` field (possibly absent) rather than
propagating a fault; a bare `null` body instead raises a TypeError
(`null.success`) that propagates. -/
theorem C9_amended_falsy_success_normalized (key endpoint : String)
    (params : Option (List (String × ParamVal))) (net : Request → FetchOutcome)
    (j : Json) (hk : ¬ key = "")
    (hnet : net (buildRequest key endpoint params) = .body (some j))
    (hj : ¬ j = Json.null)
    (hs : getField j "success" = none ∨
      getField j "success" = some (Json.bool false) ∨
      getField j "success" = some (Json.num 0) ∨
      getField j "success" = some Json.null) :
    (∃ u r, (makeRequest (some key) endpoint params net).1 =
      Except.ok (AdapterResult.err (getField j "error") u r)) ∧
    processResponse Json.null = Except.error JsFault.typeError := by
  have htr : truthy (getField j "success") = false := by
    rcases hs with h | h | h | h <;> rw [h] <;> rfl
  have hp := processResponse_of_falsy j hj htr
  refine ⟨⟨if truthy (getField j "upgrade") then getField j "upgrade" else none,
    if truthy (getField j "retry_after_seconds") then getField j "retry_after_seconds"
    else none, ?_⟩, rfl⟩
  rw [makeRequest_result key hk endpoint params net j hnet]
  exact hp

/-- Witness for the amended C9: the body `5` (valid JSON, no `success`
field, no `error` field) yields the normalized error object with an
`undefined` error. -/
theorem C9_amended_falsy_success_normalized_witness :
    (∃ u r, (makeRequest (some "K") "market/overview" none
        (fun _ => FetchOutcome.body (some (Json.num 5)))).1 =
      Except.ok (AdapterResult.err (getField (Json.num 5) "error") u r)) ∧
    processResponse Json.null = Except.error JsFault.typeError :=
  C9_amended_falsy_success_normalized "K" "market/overview" none _ _
    (by decide) rfl (by simp) (Or.inl rfl)

end Tradekix
